import Mathlib

/-! PFASST: dense vector states and the interpolation matrix.

A shallow embedding of `include/pfasst/encap/vector.hpp` and of
`include/pfasst/quadrature.hpp`: the dense vector state and its factory, the
quadrature factory, `compute_interp`, and the lookup of the quadrature type
among the options.

Conventions of the embedding.

* The template parameters `scalar`, `time` and `precision` are one type `α`
  carrying exact arithmetic (a commutative ring for the vector operations, a
  linearly ordered field for the interpolation matrix).  Rounding of
  floating-point numbers is not part of the model.
* A `VectorEncapsulation` is the list of its elements.  Methods that mutate
  `*this` take the old value and return the new one; arguments reached through
  a pointer to `const` are passed by value and cannot change.
* The states of a `vector<VectorEncapsulation*>` are pairwise different
  objects, and no state of `dst` is a state of `src`: they are passed as lists
  of values.
* A run that stops in a failed `assert`, in an exception, or in behaviour the
  language leaves undefined, returns `Except.error` with the matching `Fault`.
  Every `assert` is checked, as in a build without `NDEBUG`.
* A member function whose body is ill-formed once it is instantiated gives
  `Fault.ill_formed` for every argument: no run of the program returns from it.
* Types and functions the two headers use and do not declare are parameters,
  or are modelled from the specification where their doc comment says so.
-/

namespace pfasst

/-- The ways in which a call can stop without a result. -/
inductive Fault where
  /-- A failed `assert`. -/
  | assertion
  /-- The exception `std::out_of_range`, thrown by `vector::at`. -/
  | out_of_range
  /-- Undefined behaviour: a write past the end of a buffer, `dst[0]` of an empty vector. -/
  | undefined
  /-- The exception `std::length_error`, thrown by `vector<scalar>(size)` for a size above
  `max_size()`, which is where a negative `int` lands once converted to `size_t`. -/
  | length_error
  /-- The exception `boost::bad_any_cast`, thrown by `as<string>()` on an option without a
  value. -/
  | bad_any_cast
  /-- The exception `std::invalid_argument`. -/
  | invalid_argument
  /-- The call is ill-formed: it does not compile once the member function is instantiated,
  so that no run of the program returns from it. -/
  | ill_formed
  deriving DecidableEq

/-- The loop `for (size_t i = 0; i < n; i++) { s = body(i, s); }`. -/
def forRange {σ : Type} (body : Nat → σ → σ) : Nat → σ → σ
  | 0, s => s
  | n + 1, s => body n (forRange body n s)

/-- The loop `for (size_t i = 0; i < n; i++) { s = body(i, s); }` whose body can stop the run. -/
def forRangeM {σ : Type} (body : Nat → σ → Except Fault σ) : Nat → σ → Except Fault σ
  | 0, s => .ok s
  | n + 1, s =>
    match forRangeM body n s with
    | .ok s' => body n s'
    | .error e => .error e

namespace encap

section vector

variable {α : Type}

/-- The elements of a `VectorEncapsulation<scalar, time>`, which is a `vector<scalar>`. -/
abbrev VectorEncapsulation (α : Type) := List α

/-- Source `zero()`: `this->assign(this->size(), scalar(0.0))`. -/
def zero [Zero α] (self : VectorEncapsulation α) : VectorEncapsulation α :=
  List.replicate self.length 0

/-- The assignment `*(this->begin() + i) = v` of `std::copy`; past the end it is undefined. -/
def store (self : VectorEncapsulation α) (i : Nat) (v : α) : Except Fault (VectorEncapsulation α) :=
  if i < self.length then .ok (self.set i v) else .error .undefined

/-- Source `copy(const VectorEncapsulation* x)`:
`std::copy(x->cbegin(), x->cend(), this->begin())`, which assigns the elements of `x`
in order to the positions of `*this`, starting at the first, without comparing the sizes. -/
def copy (x self : VectorEncapsulation α) : Except Fault (VectorEncapsulation α) :=
  forRangeM
    (fun i s =>
      match x[i]? with
      | some v => store s i v
      | none => .error .undefined)
    x.length self

/-- The statement `this->at(i) += a * x->at(i)` of `saxpy`; `at` checks the index. -/
def saxpy_step [Add α] [Mul α] (a : α) (x : VectorEncapsulation α) (i : Nat)
    (self : VectorEncapsulation α) : Except Fault (VectorEncapsulation α) :=
  match x[i]? with
  | none => .error .out_of_range
  | some xi =>
    match self[i]? with
    | none => .error .out_of_range
    | some si => .ok (self.set i (si + a * xi))

/-- Source `saxpy(time a, const VectorEncapsulation* x)`:
`assert(this->size() == x->size())`, then `this->at(i) += a * x->at(i)` for every
`i < this->size()`. -/
def saxpy [Add α] [Mul α] (a : α) (x self : VectorEncapsulation α) :
    Except Fault (VectorEncapsulation α) :=
  if self.length = x.length then forRangeM (saxpy_step a x) self.length self
  else .error .assertion

/-- The statement `dst[n]->at(i) += a * mat(n, m) * src[m]->at(i)` of `mat_apply`.
The indices `n` and `m` go through `operator[]` of the vectors of pointers, which does not
check them; `i` goes through `at`, which does. -/
def mat_apply_step [Add α] [Mul α] (a : α) (mat : Nat → Nat → α)
    (src : List (VectorEncapsulation α)) (i n m : Nat) (dst : List (VectorEncapsulation α)) :
    Except Fault (List (VectorEncapsulation α)) :=
  match src[m]? with
  | none => .error .undefined
  | some sm =>
    match sm[i]? with
    | none => .error .out_of_range
    | some x =>
      match dst[n]? with
      | none => .error .undefined
      | some dn =>
        match dn[i]? with
        | none => .error .out_of_range
        | some y => .ok (dst.set n (dn.set i (y + a * mat n m * x)))

/-- Source `mat_apply(vector<VectorEncapsulation*> dst, time a, matrix<time> mat,
vector<VectorEncapsulation*> src, bool zero)`.  The matrix is given by its entries
`mat n m`, for `n < dst.size()` and `m < src.size()`.  The result is the new contents of
the states of `dst`. -/
def mat_apply [Zero α] [Add α] [Mul α] (dst : List (VectorEncapsulation α)) (a : α)
    (mat : Nat → Nat → α) (src : List (VectorEncapsulation α)) (zeroFirst : Bool) :
    Except Fault (List (VectorEncapsulation α)) :=
  let ndst := dst.length
  let nsrc := src.length
  let dst₁ := if zeroFirst then dst.map zero else dst
  match dst₁ with
  | [] => .error .undefined
  | d₀ :: _ =>
    let ndofs := d₀.length
    forRangeM
      (fun i => forRangeM (fun n => forRangeM (fun m => mat_apply_step a mat src i n m) nsrc) ndst)
      ndofs dst₁

/-- Source `norm0()`:
`return std::max(this->cbegin(), this->cend(), [](scalar a, scalar b) {return std::abs(a) < std::abs(b); });`.
The two arguments handed to `std::max` are the iterators `cbegin()` and `cend()`, not
elements, so that `std::max(a, b, comp)`, which is `comp(a, b) ? b : a`, has to call the
comparison of two scalars on two iterators and to return an iterator where `norm0` returns a
`scalar`.  No iterator of a `vector<scalar>` converts to `scalar`: the body is ill-formed
once `norm0` is instantiated.  It runs through no element, takes no absolute value of a
result, and no value is returned from it, whatever the state. -/
def norm0 (_self : VectorEncapsulation α) : Except Fault α :=
  .error .ill_formed

/-- The element `dst[n]->at(i)` of a list of states, read without a check: zero when there is
no such state or no such element. -/
def entry [Zero α] (s : List (VectorEncapsulation α)) (n i : Nat) : α :=
  (s.getD n []).getD i 0

/-- Modelled from the spec: the abstract state `Encapsulation<time>`, declared in
`encapsulation.hpp`, through which a caller holds a state of unknown concrete variant: a
dense vector state, or a state of another variant. -/
inductive Encapsulation (α : Type) where
  /-- A `VectorEncapsulation<scalar, time>`. -/
  | vector (v : VectorEncapsulation α)
  /-- A state of any other variant. -/
  | other

/-- The cast `dynamic_cast<VectorEncapsulation<scalar, time>*>(x)`: the dense vector state
behind `x`, or `nullptr` (here `none`) when `x` is of another variant. -/
def dynamic_cast : Encapsulation α → Option (VectorEncapsulation α)
  | .vector v => some v
  | .other => none

/-- Source `copy(const Encapsulation<time>* x)`: the cast, `assert(x_cast != nullptr)`, then
`this->copy(x_cast)`. -/
def copy_encap (x : Encapsulation α) (self : VectorEncapsulation α) :
    Except Fault (VectorEncapsulation α) :=
  match dynamic_cast x with
  | none => .error .assertion
  | some x_cast => copy x_cast self

/-- Source `saxpy(time a, const Encapsulation<time>* x)`: the cast,
`assert(x_cast != nullptr)`, then `this->saxpy(a, x_cast)`. -/
def saxpy_encap [Add α] [Mul α] (a : α) (x : Encapsulation α) (self : VectorEncapsulation α) :
    Except Fault (VectorEncapsulation α) :=
  match dynamic_cast x with
  | none => .error .assertion
  | some x_cast => saxpy a x_cast self

/-- One loop of casts of `mat_apply`: for each element in order, the cast and the `assert`
that it did not give `nullptr`. -/
def cast_all : List (Encapsulation α) → Except Fault (List (VectorEncapsulation α))
  | [] => .ok []
  | e :: es =>
    match dynamic_cast e with
    | none => .error .assertion
    | some v =>
      match cast_all es with
      | .ok vs => .ok (v :: vs)
      | .error f => .error f

/-- Source `mat_apply(vector<Encapsulation*> dst, time a, matrix<time> mat,
vector<Encapsulation*> src, bool zero)`: the casts of the elements of `dst`, then those of
`src`, each followed by its `assert`, then `dst_cast[0]->mat_apply(dst_cast, a, mat,
src_cast, zero)`. -/
def mat_apply_encap [Zero α] [Add α] [Mul α] (dst : List (Encapsulation α)) (a : α)
    (mat : Nat → Nat → α) (src : List (Encapsulation α)) (zeroFirst : Bool) :
    Except Fault (List (VectorEncapsulation α)) :=
  match cast_all dst with
  | .error f => .error f
  | .ok dst_cast =>
    match cast_all src with
    | .error f => .error f
    | .ok src_cast => mat_apply dst_cast a mat src_cast zeroFirst

/-- The call `dst[n]->saxpy(c, src[m])` on a list of states. -/
def saxpy_row [Add α] [Mul α] (c : α) (src : List (VectorEncapsulation α)) (n m : Nat)
    (dst : List (VectorEncapsulation α)) : Except Fault (List (VectorEncapsulation α)) :=
  match src[m]? with
  | none => .error .undefined
  | some sm =>
    match dst[n]? with
    | none => .error .undefined
    | some dn =>
      match saxpy c sm dn with
      | .ok dn' => .ok (dst.set n dn')
      | .error f => .error f

/-- The row-by-row formulation of `mat_apply`, after the words of the specification: every
state of `dst` is zeroed first when `zeroFirst` is set, then `dst[n].saxpy(a * M(n, m),
src[m])` is called for every pair `(n, m)`. -/
def mat_apply_by_saxpy [Zero α] [Add α] [Mul α] (dst : List (VectorEncapsulation α)) (a : α)
    (mat : Nat → Nat → α) (src : List (VectorEncapsulation α)) (zeroFirst : Bool) :
    Except Fault (List (VectorEncapsulation α)) :=
  forRangeM (fun n => forRangeM (fun m => saxpy_row (a * mat n m) src n m) src.length)
    dst.length (if zeroFirst then dst.map zero else dst)

/-- The constructor `VectorEncapsulation(int size)`: `vector<scalar>(size)`, then `zero()`.
The `int` is converted to `size_t`; a negative one becomes a size no vector can have. -/
def VectorEncapsulation.mk [Zero α] (size : Int) : Except Fault (VectorEncapsulation α) :=
  if 0 ≤ size then .ok (zero (List.replicate size.toNat 0)) else .error .length_error

/-- The class `VectorFactory<scalar, time>`: its one member `int size`, set by the
constructor `VectorFactory(const int size)`. -/
structure VectorFactory where
  /-- The member `size`. -/
  size : Int

/-- Source `dofs()`: `return size;`. -/
def VectorFactory.dofs (self : VectorFactory) : Int :=
  self.size

/-- Source `create(const EncapType)`: `return new VectorEncapsulation<scalar, time>(size);`.
The argument, of the enumeration `EncapType` declared in `encapsulation.hpp` (here any type
`κ`), has no name in the source. -/
def VectorFactory.create {κ : Type} [Zero α] (self : VectorFactory) (_kind : κ) :
    Except Fault (Encapsulation α) :=
  match VectorEncapsulation.mk self.size with
  | .ok v => .ok (.vector v)
  | .error f => .error f

end vector

end encap

namespace quadrature

section interp

variable {α : Type}

/-- A dense matrix `Matrix<precision>` (an `Eigen::Matrix` of dynamic size): its numbers of
rows and columns and its coefficients, `coeff i j` being the source `mat(i, j)`. -/
structure Matrix (α : Type) where
  /-- Number of rows. -/
  rows : Nat
  /-- Number of columns. -/
  cols : Nat
  /-- The coefficient in row `i` and column `j`. -/
  coeff : Nat → Nat → α

/-- The declaration `Matrix<precision> mat(ndst, nsrc)`.  Eigen leaves the coefficients
without a value; here they start at zero, and `compute_interp` assigns every one of them. -/
def Matrix.create [Zero α] (rows cols : Nat) : Matrix α :=
  { rows := rows, cols := cols, coeff := fun _ _ => 0 }

/-- The assignment `mat(i, j) = v`. -/
def Matrix.assign (mat : Matrix α) (i j : Nat) (v : α) : Matrix α :=
  { mat with coeff := fun p q => if p = i ∧ q = j then v else mat.coeff p q }

/-- The threshold `1e-32` of `compute_interp`. -/
def clamp_threshold [Field α] : α := 1 / 10 ^ 32

/-- The body of the loop over `k` in `compute_interp`, on the pair `(den, num)`:
`if (k == j) { continue; } den *= src[j] - src[k]; num *= dst[i] - src[k];`. -/
def interp_step [Field α] (dst src : List α) (i j k : Nat) (s : α × α) : α × α :=
  if k = j then s
  else (s.1 * (src.getD j 0 - src.getD k 0), s.2 * (dst.getD i 0 - src.getD k 0))

/-- The pair `(den, num)` of `compute_interp` for the entry `(i, j)`: both start at `1.0`
and go through the loop over `k < nsrc`. -/
def interp_den_num [Field α] (dst src : List α) (i j : Nat) : α × α :=
  forRange (interp_step dst src i j) src.length (1, 1)

/-- The value `compute_interp` assigns to `mat(i, j)`:
`if (abs(num) > 1e-32) { mat(i, j) = num / den; } else { mat(i, j) = 0.0; }`. -/
def interp_entry [LinearOrderedField α] (dst src : List α) (i j : Nat) : α :=
  let s := interp_den_num dst src i j
  if |s.2| > clamp_threshold then s.2 / s.1 else 0

/-- Source `compute_interp(vector<precision> dst, vector<precision> src)`. -/
def compute_interp [LinearOrderedField α] (dst src : List α) : Matrix α :=
  let ndst := dst.length
  let nsrc := src.length
  forRange
    (fun i mat => forRange (fun j mat => mat.assign i j (interp_entry dst src i j)) nsrc mat)
    ndst (Matrix.create ndst nsrc)

/-- The Lagrange basis value of the source node `j` at the point `x`: the product over all
`k ≠ j` of `(x - src[k]) / (src[j] - src[k])`. -/
def lagrange_basis [Field α] (src : List α) (j : Nat) (x : α) : α :=
  ∏ k ∈ (Finset.range src.length).erase j, (x - src.getD k 0) / (src.getD j 0 - src.getD k 0)

/-- The numerator of the Lagrange basis value: the product over all `k ≠ j` of
`x - src[k]`. -/
def lagrange_num [CommRing α] (src : List α) (j : Nat) (x : α) : α :=
  ∏ k ∈ (Finset.range src.length).erase j, (x - src.getD k 0)

/-- The denominator of the Lagrange basis value: the product over all `k ≠ j` of
`src[j] - src[k]`. -/
def lagrange_den [CommRing α] (src : List α) (j : Nat) : α :=
  ∏ k ∈ (Finset.range src.length).erase j, (src.getD j 0 - src.getD k 0)

end interp

/-- Modelled from the spec: the enumeration `QuadratureType`, declared in
`pfasst/quadrature/interface.hpp`: the five family tags, which the source names, and, since
a C++ enumeration can hold other values of its underlying type, a value `other v` that is
none of them. -/
inductive QuadratureType where
  | GaussLegendre
  | GaussLobatto
  | GaussRadau
  | ClenshawCurtis
  | Uniform
  /-- A value of the enumeration type that is none of the five tags. -/
  | other (v : Int)
  deriving DecidableEq

/-- The constructors of the five family classes, `GaussLegendre<precision>(nnodes)` and its
siblings, declared in `pfasst/quadrature/*.hpp`: parameters of the embedding.  Each gives a
rule, of type `ρ`, or leaves with an exception, of type `ε`. -/
structure Families (ρ ε : Type) where
  GaussLegendre : Nat → Except ε ρ
  GaussLobatto : Nat → Except ε ρ
  GaussRadau : Nat → Except ε ρ
  ClenshawCurtis : Nat → Except ε ρ
  Uniform : Nat → Except ε ρ

/-- What can leave `quadrature_factory`: its own `ValueError("invalid node type passed to
compute_nodes.")`, or an exception `e` that left a family constructor, which the factory
passes on as it is.  The two are kept apart. -/
inductive FactoryError (ε : Type) where
  | ValueError
  | construction (e : ε)

/-- The statement `return make_shared<Family<precision>>(nnodes);`. -/
def make_shared {ρ ε : Type} (r : Except ε ρ) : Except (FactoryError ε) ρ :=
  match r with
  | .ok rule => .ok rule
  | .error e => .error (.construction e)

/-- Source `quadrature_factory(const size_t nnodes, const QuadratureType qtype)`. -/
def quadrature_factory {ρ ε : Type} (fam : Families ρ ε) (nnodes : Nat)
    (qtype : QuadratureType) : Except (FactoryError ε) ρ :=
  if qtype = QuadratureType.GaussLegendre then make_shared (fam.GaussLegendre nnodes)
  else if qtype = QuadratureType.GaussLobatto then make_shared (fam.GaussLobatto nnodes)
  else if qtype = QuadratureType.GaussRadau then make_shared (fam.GaussRadau nnodes)
  else if qtype = QuadratureType.ClenshawCurtis then make_shared (fam.ClenshawCurtis nnodes)
  else if qtype = QuadratureType.Uniform then make_shared (fam.Uniform nnodes)
  else .error .ValueError

/-- Source `compute_nodes(size_t nnodes, QuadratureType qtype)`:
`return quadrature_factory<precision>(nnodes, qtype)->get_nodes();`, with the method
`get_nodes` of the rule a parameter. -/
def compute_nodes {ρ ε ν : Type} (fam : Families ρ ε) (get_nodes : ρ → ν) (nnodes : Nat)
    (qtype : QuadratureType) : Except (FactoryError ε) ν :=
  match quadrature_factory fam nnodes qtype with
  | .ok rule => .ok (get_nodes rule)
  | .error e => .error e

end quadrature

namespace config

/-- Source `get_value<quadrature::QuadratureType>(const string& name)`.  The options read so
far, `options::get_instance().get_variables_map()`, are a parameter: `variables_map name` is
the string given for the option `name`, if one was given. -/
def get_value (variables_map : String → Option String) (name : String) :
    Except Fault quadrature.QuadratureType :=
  match variables_map name with
  | none => .error .bad_any_cast
  | some type =>
    if type = "gauss-lobatto" then .ok quadrature.QuadratureType.GaussLobatto
    else if type = "gauss-legendre" then .ok quadrature.QuadratureType.GaussLegendre
    else if type = "gauss-radau" then .ok quadrature.QuadratureType.GaussRadau
    else if type = "clenshaw-curtis" then .ok quadrature.QuadratureType.ClenshawCurtis
    else if type = "uniform" then .ok quadrature.QuadratureType.Uniform
    else .error .invalid_argument

end config

end pfasst

/-! ## Loops -/

namespace pfasst

/-- A loop whose body keeps an invariant, and returns wherever the invariant holds, returns
a state in which the invariant holds for the final counter. -/
theorem forRangeM_inv {σ : Type} (body : Nat → σ → Except Fault σ) (P : Nat → σ → Prop)
    (n : Nat) (s : σ) (h0 : P 0 s)
    (hstep : ∀ i t, i < n → P i t → ∃ t', body i t = .ok t' ∧ P (i + 1) t') :
    ∃ t, forRangeM body n s = .ok t ∧ P n t := by
  induction n with
  | zero => exact ⟨s, rfl, h0⟩
  | succ n ih =>
    obtain ⟨t, ht, hP⟩ := ih (fun i t hi => hstep i t (Nat.lt_succ_of_lt hi))
    obtain ⟨t', ht', hP'⟩ := hstep n t (Nat.lt_succ_self n) hP
    exact ⟨t', by simp [forRangeM, ht, ht'], hP'⟩

/-- The invariant rule for the loop that cannot stop. -/
theorem forRange_inv {σ : Type} (body : Nat → σ → σ) (P : Nat → σ → Prop)
    (n : Nat) (s : σ) (h0 : P 0 s)
    (hstep : ∀ i t, i < n → P i t → P (i + 1) (body i t)) :
    P n (forRange body n s) := by
  induction n with
  | zero => exact h0
  | succ n ih =>
    exact hstep n _ (Nat.lt_succ_self n) (ih (fun i t hi => hstep i t (Nat.lt_succ_of_lt hi)))

/-- A quantity that no round of a loop changes is unchanged by the loop, when it returns. -/
theorem forRangeM_preserves {σ β : Type} (body : Nat → σ → Except Fault σ) (f : σ → β)
    (h : ∀ i s s', body i s = .ok s' → f s' = f s) (n : Nat) (s s' : σ)
    (hrun : forRangeM body n s = .ok s') : f s' = f s := by
  induction n generalizing s' with
  | zero =>
    simp only [forRangeM, Except.ok.injEq] at hrun
    rw [← hrun]
  | succ n ih =>
    simp only [forRangeM] at hrun
    cases hn : forRangeM body n s with
    | error e => rw [hn] at hrun; cases hrun
    | ok s₁ =>
      rw [hn] at hrun
      rw [h n s₁ s' hrun, ih s₁ hn]

/-- Overwriting a state by one of the same length keeps the lengths of all states. -/
theorem map_length_set {β : Type} (l : List (List β)) (n : Nat) (r dn : List β)
    (h : l[n]? = some dn) (hr : r.length = dn.length) :
    (l.set n r).map List.length = l.map List.length := by
  apply List.ext_getElem?
  intro q
  simp only [List.getElem?_map, List.getElem?_set]
  by_cases hq : n = q
  · subst hq
    obtain ⟨hlt, _⟩ := List.getElem?_eq_some_iff.mp h
    simp [h, hr, hlt]
  · simp [hq]

/-- Reading a list after one position was overwritten. -/
theorem getD_set_eq_ite {β : Type} (l : List β) (i q : Nat) (v d : β) (h : i < l.length) :
    (l.set i v).getD q d = if q = i then v else l.getD q d := by
  simp only [List.getD_eq_getElem?_getD, List.getElem?_set]
  by_cases hq : q = i
  · subst hq; simp [h]
  · have : ¬ i = q := fun e => hq e.symm
    simp [hq, this]

/-- Two lists of one length with the same elements are equal. -/
theorem ext_getD {β : Type} (d : β) (l₁ l₂ : List β) (hlen : l₁.length = l₂.length)
    (h : ∀ q, q < l₂.length → l₁.getD q d = l₂.getD q d) : l₁ = l₂ := by
  apply List.ext_getElem hlen
  intro q h₁ h₂
  have := h q h₂
  rwa [List.getD_eq_getElem l₁ d h₁, List.getD_eq_getElem l₂ d h₂] at this

namespace encap

section vector

variable {α : Type}

/-! ## `zero`, `copy`, `saxpy` -/

theorem length_zero [Zero α] (self : VectorEncapsulation α) : (zero self).length = self.length := by
  simp [zero]

theorem getD_zero [Zero α] (self : VectorEncapsulation α) (q : Nat) : (zero self).getD q 0 = 0 := by
  simp only [zero, List.getD_eq_getElem?_getD, List.getElem?_replicate]
  split <;> rfl

/-- The loop of `copy` on a source that is not longer than the target: the first elements of
the target become those of the source, the others stay (`d` is what a read outside a list
gives). -/
theorem copy_loop (d : α) (x self : VectorEncapsulation α) (h : x.length ≤ self.length) :
    ∃ t, copy x self = .ok t ∧ t.length = self.length ∧
      ∀ q, t.getD q d = if q < x.length then x.getD q d else self.getD q d := by
  unfold copy
  refine forRangeM_inv _
    (fun i t => t.length = self.length ∧
      ∀ q, t.getD q d = if q < i then x.getD q d else self.getD q d) x.length self
    ⟨rfl, fun q => by simp⟩ ?_
  intro i t hi ⟨hlen, hget⟩
  have hit : i < t.length := by omega
  refine ⟨t.set i x[i], ?_, ?_, ?_⟩
  · simp [List.getElem?_eq_getElem hi, store, hit]
  · simp [hlen]
  · intro q
    rw [getD_set_eq_ite _ _ _ _ _ hit, hget q]
    by_cases hq : q = i
    · subst hq
      simp [List.getElem?_eq_getElem hi]
    · have h1 : q < i + 1 ↔ q < i := by omega
      simp [hq, h1]

/-- The loop of `saxpy` on two states of one length. -/
theorem saxpy_loop [CommRing α] (a : α) (x self : VectorEncapsulation α)
    (h : x.length = self.length) :
    ∃ t, saxpy a x self = .ok t ∧ t.length = self.length ∧
      ∀ q, q < self.length → t.getD q 0 = self.getD q 0 + a * x.getD q 0 := by
  unfold saxpy
  rw [if_pos h.symm]
  have hstep : ∀ i t, i < self.length →
      (t.length = self.length ∧
        ∀ q, t.getD q 0 = if q < i then self.getD q 0 + a * x.getD q 0 else self.getD q 0) →
      ∃ t', saxpy_step a x i t = .ok t' ∧ (t'.length = self.length ∧
        ∀ q, t'.getD q 0 =
          if q < i + 1 then self.getD q 0 + a * x.getD q 0 else self.getD q 0) := by
    intro i t hi ⟨hlen, hget⟩
    have hit : i < t.length := by omega
    have hix : i < x.length := by omega
    refine ⟨t.set i (t[i] + a * x[i]), ?_, ?_, ?_⟩
    · simp [saxpy_step, List.getElem?_eq_getElem hix, List.getElem?_eq_getElem hit]
    · simp [hlen]
    · intro q
      rw [getD_set_eq_ite _ _ _ _ _ hit]
      by_cases hq : q = i
      · subst hq
        have := hget q
        simp only [lt_irrefl, if_false] at this
        rw [List.getD_eq_getElem t 0 hit] at this
        rw [List.getD_eq_getElem x 0 hix, ← this]
        simp
      · have h1 : q < i + 1 ↔ q < i := by omega
        rw [if_neg hq, hget q]
        simp [h1]
  obtain ⟨t, ht, hlen, hget⟩ := forRangeM_inv (saxpy_step a x)
    (fun i t => t.length = self.length ∧
      ∀ q, t.getD q 0 = if q < i then self.getD q 0 + a * x.getD q 0 else self.getD q 0)
    self.length self ⟨rfl, fun q => by simp⟩ hstep
  exact ⟨t, ht, hlen, fun q hq => by rw [hget q, if_pos hq]⟩

/-! ## `mat_apply` -/

/-- One accumulation `dst[n]->at(i) += a * mat(n, m) * src[m]->at(i)` on states of one
length `k`: it succeeds, keeps the shape, and changes the element `(n, i)` only. -/
theorem mat_apply_step_spec [CommRing α] (a : α) (mat : Nat → Nat → α)
    (src dst : List (VectorEncapsulation α)) (i n m k : Nat)
    (hsrc : ∀ r ∈ src, r.length = k) (hdst : ∀ r ∈ dst, r.length = k)
    (hn : n < dst.length) (hm : m < src.length) (hi : i < k) :
    ∃ t, mat_apply_step a mat src i n m dst = .ok t ∧ t.length = dst.length ∧
      (∀ r ∈ t, r.length = k) ∧
      ∀ p q, entry t p q =
        if p = n ∧ q = i then entry dst p q + a * mat n m * entry src m i else entry dst p q := by
  have hsm : i < src[m].length := by rw [hsrc _ (List.getElem_mem hm)]; exact hi
  have hdn : i < dst[n].length := by rw [hdst _ (List.getElem_mem hn)]; exact hi
  refine ⟨dst.set n (dst[n].set i (dst[n][i] + a * mat n m * src[m][i])), ?_, ?_, ?_, ?_⟩
  · simp [mat_apply_step, List.getElem?_eq_getElem hm, List.getElem?_eq_getElem hn,
      List.getElem?_eq_getElem hsm, List.getElem?_eq_getElem hdn]
  · simp
  · intro r hr
    rcases List.mem_or_eq_of_mem_set hr with h | h
    · exact hdst r h
    · rw [h, List.length_set]; exact hdst _ (List.getElem_mem hn)
  · intro p q
    have e1 : entry src m i = src[m][i] := by
      unfold entry
      rw [List.getD_eq_getElem src [] hm, List.getD_eq_getElem _ 0 hsm]
    unfold entry at e1 ⊢
    rw [getD_set_eq_ite _ _ _ _ _ hn]
    by_cases hp : p = n
    · subst hp
      rw [if_pos rfl, getD_set_eq_ite _ _ _ _ _ hdn, e1]
      by_cases hq : q = i
      · subst hq
        rw [if_pos rfl, if_pos ⟨rfl, rfl⟩, List.getD_eq_getElem dst [] hn,
          List.getD_eq_getElem _ 0 hdn]
      · rw [if_neg hq, if_neg (fun h => hq h.2), List.getD_eq_getElem dst [] hn]
    · rw [if_neg hp, if_neg (fun h => hp h.1)]

/-- The loop over `m` of `mat_apply`, for fixed `i` and `n`. -/
theorem mat_apply_loop_m [CommRing α] (a : α) (mat : Nat → Nat → α)
    (src dst : List (VectorEncapsulation α)) (i n k : Nat)
    (hsrc : ∀ r ∈ src, r.length = k) (hdst : ∀ r ∈ dst, r.length = k)
    (hn : n < dst.length) (hi : i < k) :
    ∃ t, forRangeM (fun m => mat_apply_step a mat src i n m) src.length dst = .ok t ∧
      t.length = dst.length ∧ (∀ r ∈ t, r.length = k) ∧
      ∀ p q, entry t p q =
        if p = n ∧ q = i then
          entry dst p q + ∑ m ∈ Finset.range src.length, a * mat n m * entry src m i
        else entry dst p q := by
  refine forRangeM_inv _
    (fun c t => t.length = dst.length ∧ (∀ r ∈ t, r.length = k) ∧
      ∀ p q, entry t p q =
        if p = n ∧ q = i then
          entry dst p q + ∑ m ∈ Finset.range c, a * mat n m * entry src m i
        else entry dst p q) src.length dst ⟨rfl, hdst, fun p q => by simp⟩ ?_
  intro m t hm ⟨hlen, hrect, hent⟩
  obtain ⟨t', ht', hlen', hrect', hent'⟩ :=
    mat_apply_step_spec a mat src t i n m k hsrc hrect (by omega) hm hi
  refine ⟨t', ht', by omega, hrect', fun p q => ?_⟩
  rw [hent' p q, hent p q]
  by_cases h : p = n ∧ q = i
  · rw [if_pos h, if_pos h, if_pos h, Finset.sum_range_succ, add_assoc]
  · rw [if_neg h, if_neg h, if_neg h]

/-- The loop over `n` of `mat_apply`, for a fixed `i`. -/
theorem mat_apply_loop_n [CommRing α] (a : α) (mat : Nat → Nat → α)
    (src dst : List (VectorEncapsulation α)) (i k : Nat)
    (hsrc : ∀ r ∈ src, r.length = k) (hdst : ∀ r ∈ dst, r.length = k) (hi : i < k) :
    ∃ t, forRangeM
        (fun n => forRangeM (fun m => mat_apply_step a mat src i n m) src.length)
        dst.length dst = .ok t ∧
      t.length = dst.length ∧ (∀ r ∈ t, r.length = k) ∧
      ∀ p q, entry t p q =
        if p < dst.length ∧ q = i then
          entry dst p q + ∑ m ∈ Finset.range src.length, a * mat p m * entry src m i
        else entry dst p q := by
  refine forRangeM_inv _
    (fun c t => t.length = dst.length ∧ (∀ r ∈ t, r.length = k) ∧
      ∀ p q, entry t p q =
        if p < c ∧ q = i then
          entry dst p q + ∑ m ∈ Finset.range src.length, a * mat p m * entry src m i
        else entry dst p q) dst.length dst ⟨rfl, hdst, fun p q => by simp⟩ ?_
  intro n t hn ⟨hlen, hrect, hent⟩
  obtain ⟨t', ht', hlen', hrect', hent'⟩ :=
    mat_apply_loop_m a mat src t i n k hsrc hrect (by omega) hi
  refine ⟨t', ht', by omega, hrect', fun p q => ?_⟩
  rw [hent' p q, hent p q]
  by_cases hq : q = i
  · by_cases hp : p = n
    · subst hp
      rw [if_pos ⟨rfl, hq⟩, if_neg (fun h => absurd h.1 (lt_irrefl p)),
        if_pos ⟨Nat.lt_succ_self p, hq⟩]
    · rw [if_neg (fun h => hp h.1)]
      by_cases hlt : p < n
      · rw [if_pos ⟨hlt, hq⟩, if_pos ⟨Nat.lt_succ_of_lt hlt, hq⟩]
      · rw [if_neg (fun h => hlt h.1), if_neg (fun h => hlt (by omega))]
  · rw [if_neg (fun h => hq h.2), if_neg (fun h => hq h.2), if_neg (fun h => hq h.2)]

/-- The three nested loops of `mat_apply` on states of one length `k`. -/
theorem mat_apply_loop_i [CommRing α] (a : α) (mat : Nat → Nat → α)
    (src dst : List (VectorEncapsulation α)) (k : Nat)
    (hsrc : ∀ r ∈ src, r.length = k) (hdst : ∀ r ∈ dst, r.length = k) :
    ∃ t, forRangeM
        (fun i => forRangeM
          (fun n => forRangeM (fun m => mat_apply_step a mat src i n m) src.length) dst.length)
        k dst = .ok t ∧
      t.length = dst.length ∧ (∀ r ∈ t, r.length = k) ∧
      ∀ p q, entry t p q =
        if p < dst.length ∧ q < k then
          entry dst p q + ∑ m ∈ Finset.range src.length, a * mat p m * entry src m q
        else entry dst p q := by
  have hstep : ∀ i t, i < k →
      (t.length = dst.length ∧ (∀ r ∈ t, r.length = k) ∧
        ∀ p q, entry t p q =
          if p < dst.length ∧ q < i then
            entry dst p q + ∑ m ∈ Finset.range src.length, a * mat p m * entry src m q
          else entry dst p q) →
      ∃ t', forRangeM
          (fun n => forRangeM (fun m => mat_apply_step a mat src i n m) src.length)
          dst.length t = .ok t' ∧
        (t'.length = dst.length ∧ (∀ r ∈ t', r.length = k) ∧
          ∀ p q, entry t' p q =
            if p < dst.length ∧ q < i + 1 then
              entry dst p q + ∑ m ∈ Finset.range src.length, a * mat p m * entry src m q
            else entry dst p q) := by
    intro i t hi ⟨hlen, hrect, hent⟩
    obtain ⟨t', ht', hlen', hrect', hent'⟩ := mat_apply_loop_n a mat src t i k hsrc hrect hi
    rw [hlen] at ht'
    refine ⟨t', ht', by omega, hrect', fun p q => ?_⟩
    rw [hent' p q, hent p q, hlen]
    by_cases hp : p < dst.length
    · by_cases hq : q = i
      · subst hq
        rw [if_pos ⟨hp, rfl⟩, if_neg (fun h => absurd h.2 (lt_irrefl q)),
          if_pos ⟨hp, Nat.lt_succ_self q⟩]
      · rw [if_neg (fun h => hq h.2)]
        by_cases hlt : q < i
        · rw [if_pos ⟨hp, hlt⟩, if_pos ⟨hp, Nat.lt_succ_of_lt hlt⟩]
        · rw [if_neg (fun h => hlt h.2), if_neg (fun h => hlt (by omega))]
    · rw [if_neg (fun h => hp h.1), if_neg (fun h => hp h.1), if_neg (fun h => hp h.1)]
  exact forRangeM_inv _
    (fun c t => t.length = dst.length ∧ (∀ r ∈ t, r.length = k) ∧
      ∀ p q, entry t p q =
        if p < dst.length ∧ q < c then
          entry dst p q + ∑ m ∈ Finset.range src.length, a * mat p m * entry src m q
        else entry dst p q) k dst ⟨rfl, hdst, fun p q => by simp⟩ hstep

/-- The states `mat_apply` starts its loops from: zeroed when `zeroFirst` is set. -/
theorem entry_zeroFirst [CommRing α] (dst : List (VectorEncapsulation α)) (z : Bool) (k : Nat)
    (hdst : ∀ r ∈ dst, r.length = k) :
    (if z then dst.map zero else dst).length = dst.length ∧
    (∀ r ∈ (if z then dst.map zero else dst), r.length = k) ∧
    ∀ p q, entry (if z then dst.map zero else dst) p q = if z then 0 else entry dst p q := by
  cases z
  · exact ⟨rfl, hdst, fun p q => rfl⟩
  · refine ⟨by simp, ?_, ?_⟩
    · intro r hr
      simp only [if_true, List.mem_map] at hr
      obtain ⟨r', hr', rfl⟩ := hr
      rw [length_zero]; exact hdst r' hr'
    · intro p q
      simp only [if_true, entry, List.getD_eq_getElem?_getD, List.getElem?_map]
      cases dst[p]? with
      | none => simp
      | some r =>
        have := getD_zero r q
        simpa [List.getD_eq_getElem?_getD] using this

/-- What `mat_apply` leaves in `dst`, for states of one length `k`. -/
theorem mat_apply_entries [CommRing α] (dst src : List (VectorEncapsulation α)) (a : α)
    (mat : Nat → Nat → α) (z : Bool) (k : Nat) (hne : dst ≠ [])
    (hdst : ∀ r ∈ dst, r.length = k) (hsrc : ∀ r ∈ src, r.length = k) :
    ∃ t, mat_apply dst a mat src z = .ok t ∧ t.length = dst.length ∧
      (∀ r ∈ t, r.length = k) ∧
      ∀ p q, p < dst.length → q < k →
        entry t p q = (if z then 0 else entry dst p q) +
          a * ∑ m ∈ Finset.range src.length, mat p m * entry src m q := by
  obtain ⟨hlen₁, hrect₁, hent₁⟩ := entry_zeroFirst dst z k hdst
  obtain ⟨d₀, tl, hd⟩ : ∃ d₀ tl, (if z then dst.map zero else dst) = d₀ :: tl := by
    cases h : (if z then dst.map zero else dst) with
    | nil =>
      rw [h] at hlen₁
      exact absurd (List.length_eq_zero.mp hlen₁.symm) hne
    | cons d₀ tl => exact ⟨d₀, tl, rfl⟩
  have hk : d₀.length = k := hrect₁ d₀ (by rw [hd]; exact List.mem_cons_self _ _)
  have hrun : mat_apply dst a mat src z =
      forRangeM
        (fun i => forRangeM
          (fun n => forRangeM (fun m => mat_apply_step a mat src i n m) src.length)
          (if z then dst.map zero else dst).length)
        k (if z then dst.map zero else dst) := by
    simp only [mat_apply]
    rw [hd, ← hk]
    have : dst.length = (d₀ :: tl).length := by rw [← hd, hlen₁]
    rw [this]
  obtain ⟨t, ht, hlen, hrect, hent⟩ :=
    mat_apply_loop_i a mat src (if z then dst.map zero else dst) k hsrc hrect₁
  refine ⟨t, by rw [hrun, ht], by rw [hlen, hlen₁], hrect, fun p q hp hq => ?_⟩
  rw [hent p q, hlen₁, if_pos ⟨hp, hq⟩, hent₁ p q, Finset.mul_sum]
  congr 1
  exact Finset.sum_congr rfl (fun m _ => by ring)

/-- Two lists of states of one length `k` with the same elements are equal. -/
theorem ext_entry [Zero α] (s t : List (VectorEncapsulation α)) (k : Nat)
    (hlen : s.length = t.length) (hs : ∀ r ∈ s, r.length = k) (ht : ∀ r ∈ t, r.length = k)
    (h : ∀ p q, p < t.length → q < k → entry s p q = entry t p q) : s = t := by
  apply List.ext_getElem hlen
  intro p h₁ h₂
  have hsk : s[p].length = k := hs _ (List.getElem_mem h₁)
  have htk : t[p].length = k := ht _ (List.getElem_mem h₂)
  apply ext_getD 0 _ _ (by rw [hsk, htk])
  intro q hq
  have := h p q h₂ (by rw [← htk]; exact hq)
  unfold entry at this
  rwa [List.getD_eq_getElem s [] h₁, List.getD_eq_getElem t [] h₂] at this

/-! ## The claims on the dense vector state -/

/-- C1: for a non-empty list `dst` and a list `src` of states that all have the same length
`k`, every matrix `M` and every scalar `a`, `mat_apply(dst, a, M, src, zeroFirst)` returns,
keeps the number and the lengths of the states of `dst`, and leaves each `dst[n_idx][i]` equal
to `base + a * Σ_{m_idx} M(n_idx, m_idx) * src[m_idx][i]`, where `base` is `0` when
`zeroFirst` is set and the previous value of `dst[n_idx][i]` otherwise. -/
theorem mat_apply_spec [CommRing α] (dst src : List (VectorEncapsulation α)) (a : α)
    (M : Nat → Nat → α) (zeroFirst : Bool) (k : Nat) (hne : dst ≠ [])
    (hdst : ∀ d ∈ dst, d.length = k) (hsrc : ∀ s ∈ src, s.length = k) :
    ∃ dst', mat_apply dst a M src zeroFirst = .ok dst' ∧ dst'.length = dst.length ∧
      (∀ d ∈ dst', d.length = k) ∧
      ∀ n_idx i, n_idx < dst.length → i < k →
        entry dst' n_idx i = (if zeroFirst then 0 else entry dst n_idx i) +
          a * ∑ m_idx ∈ Finset.range src.length, M n_idx m_idx * entry src m_idx i :=
  mat_apply_entries dst src a M zeroFirst k hne hdst hsrc

/-- C2: for states `self` and `x` of the same length and every scalar `a`, `saxpy(a, x)`
returns and leaves `self[i]` equal to its previous value plus `a * x[i]` at every index `i`,
the length of `self` being kept; `x`, an argument the embedding passes by value, is not part
of what the call changes. -/
theorem saxpy_spec [CommRing α] (a : α) (x self : VectorEncapsulation α)
    (h : x.length = self.length) :
    ∃ self', saxpy a x self = .ok self' ∧ self'.length = self.length ∧
      ∀ i, i < self.length → self'.getD i 0 = self.getD i 0 + a * x.getD i 0 :=
  saxpy_loop a x self h

/-- On a source of the length of the target, `copy` returns the source. -/
theorem copy_same_length (x self : VectorEncapsulation α) (h : x.length = self.length) :
    copy x self = .ok x := by
  cases x with
  | nil =>
    have : self = [] := List.length_eq_zero.mp h.symm
    subst this
    rfl
  | cons x₀ xs =>
    obtain ⟨t, ht, hlen, hget⟩ := copy_loop x₀ (x₀ :: xs) self (le_of_eq h)
    rw [ht]
    congr 1
    apply ext_getD x₀ _ _ (by rw [hlen, h])
    intro q hq
    rw [hget q, if_pos hq]

/-- C3: for a state `self` and a source of the same length, `copy(source)` returns and leaves
`self` equal to `source`, element for element, whatever `self` held before. -/
theorem copy_spec (source self : VectorEncapsulation α) (h : source.length = self.length) :
    copy source self = .ok source :=
  copy_same_length source self h

/-- C4: for every state, the empty one included, `zero()` returns a state of the same length
whose elements are all `0`. -/
theorem zero_spec [Zero α] (self : VectorEncapsulation α) :
    (zero self).length = self.length ∧ ∀ e ∈ zero self, e = 0 := by
  refine ⟨length_zero self, fun e he => ?_⟩
  exact List.eq_of_mem_replicate he

/-- C9: for a non-empty list `src` of `n` states of one length and a list `dst` of `n` states
of that length, `mat_apply(dst, 1, I, src, true)` with `I` the identity matrix returns and
leaves `dst` equal to `src`, state for state. -/
theorem mat_apply_identity [CommRing α] (dst src : List (VectorEncapsulation α)) (k : Nat)
    (hne : src ≠ []) (hlen : dst.length = src.length)
    (hdst : ∀ d ∈ dst, d.length = k) (hsrc : ∀ s ∈ src, s.length = k) :
    mat_apply dst 1 (fun n m => if n = m then 1 else 0) src true = .ok src := by
  have hne' : dst ≠ [] := by
    intro h0
    rw [h0] at hlen
    exact hne (List.length_eq_zero.mp hlen.symm)
  obtain ⟨t, ht, htlen, htrect, hent⟩ :=
    mat_apply_entries dst src 1 (fun n m => if n = m then 1 else 0) true k hne' hdst hsrc
  rw [ht]
  congr 1
  apply ext_entry t src k (by rw [htlen, hlen]) htrect hsrc
  intro p q hp hq
  rw [hent p q (by rw [hlen]; exact hp) hq]
  simp only [if_true, zero_add, one_mul, ite_mul, zero_mul]
  rw [Finset.sum_ite_eq (Finset.range src.length) p (fun m => entry src m q)]
  simp [hp]

/-- For states `self` and `x` of one length, `copy(x)` followed by `saxpy(-1, x)` returns
and leaves `self` with its length and with every element equal to `0`. -/
theorem copy_saxpy_zero [CommRing α] (x self : VectorEncapsulation α)
    (h : x.length = self.length) :
    ∃ s₁ s₂, copy x self = .ok s₁ ∧ saxpy (-1) x s₁ = .ok s₂ ∧
      s₂.length = self.length ∧ (∀ e ∈ s₂, e = 0) := by
  obtain ⟨t, ht, hlen, hget⟩ := saxpy_loop (-1) x x rfl
  have hall : ∀ e ∈ t, e = 0 := by
    intro e he
    obtain ⟨q, hq, rfl⟩ := List.getElem_of_mem he
    have := hget q (by rw [← hlen]; exact hq)
    rw [List.getD_eq_getElem t 0 hq] at this
    rw [this]; ring
  exact ⟨x, t, copy_same_length x self h, ht, by rw [hlen, h], hall⟩

/-- C10, at `x = [1, -2]` and `self = [5, 6]`: `copy(x)` followed by `saxpy(-1, x)` leaves
`self = [0, 0]`, every element `0`, and `norm0()` of that state returns no value, where the
claim has it return `0`. -/
theorem copy_saxpy_norm0 :
    copy ([1, -2] : List ℤ) [5, 6] = .ok [1, -2] ∧
    saxpy (-1 : ℤ) [1, -2] [1, -2] = .ok [0, 0] ∧
    norm0 ([0, 0] : List ℤ) = .error .ill_formed ∧
    norm0 ([0, 0] : List ℤ) ≠ .ok 0 :=
  ⟨rfl, rfl, rfl, fun h => by cases h⟩

/-- C5, at the state `[-3, 1]`: the maximum of the absolute values of the elements is `3`,
and `norm0()` returns no value, so not `3`. -/
theorem norm0_no_value :
    norm0 ([-3, 1] : List ℤ) = .error .ill_formed ∧
    norm0 ([-3, 1] : List ℤ) ≠ .ok 3 ∧
    |([-3, 1] : List ℤ).getD 0 0| = 3 ∧ |([-3, 1] : List ℤ).getD 1 0| ≤ 3 :=
  ⟨rfl, (fun h => by cases h), by simp, by simp⟩

/-- C1 at `dst = [[7, 8], [9, 10]]`, `src = [[1, 2], [3, 4]]`, `a = 2`, the identity matrix
and no zeroing. -/
theorem mat_apply_spec_witness :
    ([[7, 8], [9, 10]] : List (List ℤ)) ≠ [] ∧
    (∀ d ∈ ([[7, 8], [9, 10]] : List (List ℤ)), d.length = 2) ∧
    (∀ s ∈ ([[1, 2], [3, 4]] : List (List ℤ)), s.length = 2) ∧
    ∃ dst', mat_apply ([[7, 8], [9, 10]] : List (List ℤ)) 2 (fun n m => if n = m then 1 else 0)
        [[1, 2], [3, 4]] false = .ok dst' ∧
      dst'.length = ([[7, 8], [9, 10]] : List (List ℤ)).length ∧
      (∀ d ∈ dst', d.length = 2) ∧
      ∀ n_idx i, n_idx < ([[7, 8], [9, 10]] : List (List ℤ)).length → i < 2 →
        entry dst' n_idx i =
          (if false then 0 else entry ([[7, 8], [9, 10]] : List (List ℤ)) n_idx i) +
            2 * ∑ m_idx ∈ Finset.range ([[1, 2], [3, 4]] : List (List ℤ)).length,
              (fun n m => if n = m then (1 : ℤ) else 0) n_idx m_idx *
                entry ([[1, 2], [3, 4]] : List (List ℤ)) m_idx i :=
  ⟨by simp, by simp, by simp,
    mat_apply_spec ([[7, 8], [9, 10]] : List (List ℤ)) [[1, 2], [3, 4]] 2
      (fun n m => if n = m then 1 else 0) false 2 (by simp) (by simp) (by simp)⟩

/-- C2 at `a = 2`, `x = [1, 2]`, `self = [3, 4]`. -/
theorem saxpy_spec_witness :
    ([1, 2] : List ℤ).length = ([3, 4] : List ℤ).length ∧
    ∃ self', saxpy (2 : ℤ) [1, 2] [3, 4] = .ok self' ∧
      self'.length = ([3, 4] : List ℤ).length ∧
      ∀ i, i < ([3, 4] : List ℤ).length →
        self'.getD i 0 = ([3, 4] : List ℤ).getD i 0 + 2 * ([1, 2] : List ℤ).getD i 0 :=
  ⟨rfl, saxpy_spec (2 : ℤ) [1, 2] [3, 4] rfl⟩

/-- C3 at `source = [1, 2, 3]`, `self = [7, 8, 9]`. -/
theorem copy_spec_witness :
    ([1, 2, 3] : List ℤ).length = ([7, 8, 9] : List ℤ).length ∧
    copy ([1, 2, 3] : List ℤ) [7, 8, 9] = .ok [1, 2, 3] :=
  ⟨rfl, copy_spec ([1, 2, 3] : List ℤ) [7, 8, 9] rfl⟩

/-- C9 at `dst = [[7, 8], [9, 10]]`, `src = [[1, 2], [3, 4]]`. -/
theorem mat_apply_identity_witness :
    ([[1, 2], [3, 4]] : List (List ℤ)) ≠ [] ∧
    ([[7, 8], [9, 10]] : List (List ℤ)).length = ([[1, 2], [3, 4]] : List (List ℤ)).length ∧
    (∀ d ∈ ([[7, 8], [9, 10]] : List (List ℤ)), d.length = 2) ∧
    (∀ s ∈ ([[1, 2], [3, 4]] : List (List ℤ)), s.length = 2) ∧
    mat_apply ([[7, 8], [9, 10]] : List (List ℤ)) 1 (fun n m => if n = m then 1 else 0)
      [[1, 2], [3, 4]] true = .ok [[1, 2], [3, 4]] :=
  ⟨by simp, rfl, by simp, by simp,
    mat_apply_identity ([[7, 8], [9, 10]] : List (List ℤ)) [[1, 2], [3, 4]] 2
      (by simp) rfl (by simp) (by simp)⟩

/-! ## Lengths, mismatches and the factory -/

/-- A call of `copy` that returns keeps the length of the target. -/
theorem copy_length (x self t : VectorEncapsulation α) (h : copy x self = .ok t) :
    t.length = self.length := by
  refine forRangeM_preserves _ List.length ?_ x.length self t h
  intro i s s' hs
  cases hx : x[i]? with
  | none => simp [hx] at hs
  | some v =>
    simp only [hx, store] at hs
    split at hs
    · simp only [Except.ok.injEq] at hs
      rw [← hs, List.length_set]
    · cases hs

/-- A round of `saxpy` that returns keeps the length. -/
theorem saxpy_step_length [Add α] [Mul α] (a : α) (x : VectorEncapsulation α) (i : Nat)
    (s s' : VectorEncapsulation α) (hs : saxpy_step a x i s = .ok s') :
    s'.length = s.length := by
  unfold saxpy_step at hs
  cases hx : x[i]? with
  | none => simp [hx] at hs
  | some xi =>
    cases hsi : s[i]? with
    | none => simp [hx, hsi] at hs
    | some si =>
      simp only [hx, hsi, Except.ok.injEq] at hs
      rw [← hs, List.length_set]

/-- A call of `saxpy` that returns keeps the length of `self`. -/
theorem saxpy_length [Add α] [Mul α] (a : α) (x self t : VectorEncapsulation α)
    (h : saxpy a x self = .ok t) : t.length = self.length := by
  unfold saxpy at h
  split at h
  · exact forRangeM_preserves _ List.length (saxpy_step_length a x) self.length self t h
  · cases h

/-- A round of `mat_apply` that returns keeps the lengths of all states. -/
theorem mat_apply_step_lengths [Add α] [Mul α] (a : α) (mat : Nat → Nat → α)
    (src : List (VectorEncapsulation α)) (i n m : Nat) (s s' : List (VectorEncapsulation α))
    (hs : mat_apply_step a mat src i n m s = .ok s') :
    s'.map List.length = s.map List.length := by
  unfold mat_apply_step at hs
  cases h1 : src[m]? with
  | none => simp [h1] at hs
  | some sm =>
    cases h2 : sm[i]? with
    | none => simp [h1, h2] at hs
    | some x =>
      cases h3 : s[n]? with
      | none => simp [h1, h2, h3] at hs
      | some dn =>
        cases h4 : dn[i]? with
        | none => simp [h1, h2, h3, h4] at hs
        | some y =>
          simp only [h1, h2, h3, h4, Except.ok.injEq] at hs
          rw [← hs]
          exact map_length_set s n _ dn h3 (List.length_set _ _ _)

/-- A call of `mat_apply` that returns keeps the number of states of `dst` and the length of
each. -/
theorem mat_apply_lengths [Zero α] [Add α] [Mul α] (dst src : List (VectorEncapsulation α))
    (a : α) (mat : Nat → Nat → α) (z : Bool) (t : List (VectorEncapsulation α))
    (h : mat_apply dst a mat src z = .ok t) : t.map List.length = dst.map List.length := by
  have hz : (if z then dst.map zero else dst).map List.length = dst.map List.length := by
    cases z
    · rfl
    · simp only [if_true, List.map_map]
      apply List.map_congr_left
      intro r _
      exact length_zero r
  rw [← hz]
  simp only [mat_apply] at h
  split at h
  · cases h
  · refine forRangeM_preserves _ (List.map List.length) ?_ _ _ t h
    intro i s s' hs
    refine forRangeM_preserves _ (List.map List.length) ?_ _ _ s' hs
    intro n s₁ s₁' hs₁
    refine forRangeM_preserves _ (List.map List.length) ?_ _ _ s₁' hs₁
    intro m s₂ s₂' hs₂
    exact mat_apply_step_lengths a mat src i n m s₂ s₂' hs₂

/-- The casts of a list in which one element is of another variant stop in the `assert`. -/
theorem cast_all_mismatch (l : List (Encapsulation α))
    (h : ∃ e ∈ l, dynamic_cast e = none) : cast_all l = .error .assertion := by
  induction l with
  | nil => obtain ⟨e, he, _⟩ := h; cases he
  | cons e es ih =>
    cases hc : dynamic_cast e with
    | none => simp [cast_all, hc]
    | some v =>
      obtain ⟨e', he', hn⟩ := h
      rcases List.mem_cons.mp he' with rfl | hmem
      · rw [hc] at hn; cases hn
      · simp [cast_all, hc, ih ⟨e', hmem, hn⟩]

/-- The casts of a list either all succeed or stop in the `assert`. -/
theorem cast_all_cases (l : List (Encapsulation α)) :
    cast_all l = .error .assertion ∨ ∃ vs, cast_all l = .ok vs := by
  induction l with
  | nil => exact Or.inr ⟨[], rfl⟩
  | cons e es ih =>
    cases hc : dynamic_cast e with
    | none => left; simp [cast_all, hc]
    | some v =>
      rcases ih with h | ⟨vs, h⟩
      · left; simp [cast_all, hc, h]
      · right; exact ⟨v :: vs, by simp [cast_all, hc, h]⟩

/-- C11, at `self = [4, -5]`: `zero()` leaves `[0, 0]`, and `norm0()` of that state returns
no value, where the claim has it return `0`. -/
theorem zero_norm0_no_value :
    zero ([4, -5] : List ℤ) = [0, 0] ∧
    norm0 (zero ([4, -5] : List ℤ)) = .error .ill_formed ∧
    norm0 (zero ([4, -5] : List ℤ)) ≠ .ok 0 :=
  ⟨rfl, rfl, fun h => by cases h⟩

/-- C12: for states `self` and `x` of different lengths, `x` the shorter or the longer, and
every scalar `a`, `saxpy(a, x)` stops in its `assert`, which comes before the first read or
write of an element: nothing is returned, no shorter length is used, no element is read. -/
theorem saxpy_length_mismatch [Add α] [Mul α] (a : α) (x self : VectorEncapsulation α)
    (h : x.length ≠ self.length) : saxpy a x self = .error .assertion := by
  unfold saxpy
  rw [if_neg (fun e => h e.symm)]

/-- C13, at `source = [1]` on `self = [7, 8, 9]` and at `source = [1, 2]` on `self = [7]`:
the lengths differ; on the shorter source `copy` returns, having overwritten `self[0]`; on
the longer one it writes past the end of `self`. -/
theorem copy_length_mismatch :
    ([1] : List ℤ).length ≠ ([7, 8, 9] : List ℤ).length ∧
    copy ([1] : List ℤ) [7, 8, 9] = .ok [1, 8, 9] ∧
    ([1, 2] : List ℤ).length ≠ ([7] : List ℤ).length ∧
    copy ([1, 2] : List ℤ) [7] = .error .undefined :=
  ⟨by decide, rfl, by decide, rfl⟩

/-- C14: an operand of another variant stops the call in the `assert` that follows the cast,
before any element is touched: `copy(x)` and `saxpy(a, x)` when `x` is of another variant,
`mat_apply` when an element of `dst` or of `src` is, the casts of all elements coming before
the first zeroing or accumulation. -/
theorem variant_mismatch [Zero α] [Add α] [Mul α] (x : Encapsulation α)
    (self : VectorEncapsulation α) (a : α) (dst src : List (Encapsulation α))
    (mat : Nat → Nat → α) (zeroFirst : Bool) :
    (dynamic_cast x = none →
      copy_encap x self = .error .assertion ∧ saxpy_encap a x self = .error .assertion) ∧
    ((∃ e ∈ dst, dynamic_cast e = none) ∨ (∃ e ∈ src, dynamic_cast e = none) →
      mat_apply_encap dst a mat src zeroFirst = .error .assertion) := by
  refine ⟨fun hx => ⟨by simp [copy_encap, hx], by simp [saxpy_encap, hx]⟩, fun h => ?_⟩
  unfold mat_apply_encap
  rcases cast_all_cases dst with hd | ⟨vs, hd⟩
  · rw [hd]
  · rcases h with h | h
    · rw [cast_all_mismatch dst h] at hd; cases hd
    · rw [hd, cast_all_mismatch src h]

/-- C15: the length of a state is fixed: `zero` keeps it, and every call of `copy`, `saxpy`
or `mat_apply` that returns, whatever its arguments, leaves `self`, or each state of `dst`,
with the length it had before the call. -/
theorem length_fixed [Zero α] [Add α] [Mul α] (self x : VectorEncapsulation α) (a : α)
    (dst src : List (VectorEncapsulation α)) (mat : Nat → Nat → α) (zeroFirst : Bool) :
    (zero self).length = self.length ∧
    (∀ t, copy x self = .ok t → t.length = self.length) ∧
    (∀ t, saxpy a x self = .ok t → t.length = self.length) ∧
    (∀ t, mat_apply dst a mat src zeroFirst = .ok t →
      t.map List.length = dst.map List.length) :=
  ⟨length_zero self, fun t => copy_length x self t, fun t => saxpy_length a x self t,
    fun t => mat_apply_lengths dst src a mat zeroFirst t⟩

/-- C16: for a factory built with a size `s ≥ 0` and every kind tag, `create(kind)` returns a
dense vector state of length `s` whose elements are all `0`, the same for every kind, and
`dofs()` returns `s`. -/
theorem factory_create {κ : Type} [Zero α] (s : Int) (hs : 0 ≤ s) (kind : κ) :
    ∃ v : VectorEncapsulation α,
      (VectorFactory.mk s).create kind = .ok (Encapsulation.vector v) ∧
      (v.length : Int) = s ∧ (∀ e ∈ v, e = 0) ∧
      (∀ kind' : κ, (VectorFactory.mk s).create kind' = .ok (Encapsulation.vector v)) ∧
      (VectorFactory.mk s).dofs = s := by
  refine ⟨zero (List.replicate s.toNat 0), ?_, ?_, ?_, ?_, rfl⟩
  · simp [VectorFactory.create, VectorEncapsulation.mk, hs]
  · simp [zero, Int.toNat_of_nonneg hs]
  · intro e he
    exact List.eq_of_mem_replicate he
  · intro kind'
    simp [VectorFactory.create, VectorEncapsulation.mk, hs]

/-! ## `mat_apply` and the row-by-row formulation -/

/-- One call `dst[n]->saxpy(c, src[m])` on states of one length `k`. -/
theorem saxpy_row_spec [CommRing α] (c : α) (src dst : List (VectorEncapsulation α))
    (n m k : Nat) (hsrc : ∀ r ∈ src, r.length = k) (hdst : ∀ r ∈ dst, r.length = k)
    (hn : n < dst.length) (hm : m < src.length) :
    ∃ t, saxpy_row c src n m dst = .ok t ∧ t.length = dst.length ∧
      (∀ r ∈ t, r.length = k) ∧
      ∀ p q, q < k → entry t p q =
        if p = n then entry dst p q + c * entry src m q else entry dst p q := by
  have hsm : src[m].length = k := hsrc _ (List.getElem_mem hm)
  have hdn : dst[n].length = k := hdst _ (List.getElem_mem hn)
  obtain ⟨t', ht', hlen', hget'⟩ := saxpy_loop c src[m] dst[n] (by rw [hsm, hdn])
  refine ⟨dst.set n t', ?_, ?_, ?_, ?_⟩
  · simp [saxpy_row, List.getElem?_eq_getElem hm, List.getElem?_eq_getElem hn, ht']
  · simp
  · intro r hr
    rcases List.mem_or_eq_of_mem_set hr with h | h
    · exact hdst r h
    · rw [h, hlen', hdn]
  · intro p q hq
    unfold entry
    rw [getD_set_eq_ite _ _ _ _ _ hn]
    by_cases hp : p = n
    · subst hp
      rw [if_pos rfl, if_pos rfl, hget' q (by rw [hdn]; exact hq),
        List.getD_eq_getElem dst [] hn, List.getD_eq_getElem src [] hm]
    · rw [if_neg hp, if_neg hp]

/-- The calls `dst[n]->saxpy(a * M(n, m), src[m])` for every `m`, for a fixed `n`. -/
theorem by_saxpy_loop_m [CommRing α] (a : α) (mat : Nat → Nat → α)
    (src dst : List (VectorEncapsulation α)) (n k : Nat)
    (hsrc : ∀ r ∈ src, r.length = k) (hdst : ∀ r ∈ dst, r.length = k) (hn : n < dst.length) :
    ∃ t, forRangeM (fun m => saxpy_row (a * mat n m) src n m) src.length dst = .ok t ∧
      t.length = dst.length ∧ (∀ r ∈ t, r.length = k) ∧
      ∀ p q, q < k → entry t p q =
        if p = n then
          entry dst p q + ∑ m ∈ Finset.range src.length, a * mat n m * entry src m q
        else entry dst p q := by
  refine forRangeM_inv _
    (fun c t => t.length = dst.length ∧ (∀ r ∈ t, r.length = k) ∧
      ∀ p q, q < k → entry t p q =
        if p = n then entry dst p q + ∑ m ∈ Finset.range c, a * mat n m * entry src m q
        else entry dst p q) src.length dst ⟨rfl, hdst, fun p q _ => by simp⟩ ?_
  intro m t hm ⟨hlen, hrect, hent⟩
  obtain ⟨t', ht', hlen', hrect', hent'⟩ :=
    saxpy_row_spec (a * mat n m) src t n m k hsrc hrect (by omega) hm
  refine ⟨t', ht', by omega, hrect', fun p q hq => ?_⟩
  rw [hent' p q hq, hent p q hq]
  by_cases h : p = n
  · rw [if_pos h, if_pos h, if_pos h, Finset.sum_range_succ, add_assoc]
  · rw [if_neg h, if_neg h, if_neg h]

/-- The calls `dst[n]->saxpy(a * M(n, m), src[m])` for every pair `(n, m)`. -/
theorem by_saxpy_loop_n [CommRing α] (a : α) (mat : Nat → Nat → α)
    (src dst : List (VectorEncapsulation α)) (k : Nat)
    (hsrc : ∀ r ∈ src, r.length = k) (hdst : ∀ r ∈ dst, r.length = k) :
    ∃ t, forRangeM
        (fun n => forRangeM (fun m => saxpy_row (a * mat n m) src n m) src.length)
        dst.length dst = .ok t ∧
      t.length = dst.length ∧ (∀ r ∈ t, r.length = k) ∧
      ∀ p q, p < dst.length → q < k → entry t p q =
        entry dst p q + ∑ m ∈ Finset.range src.length, a * mat p m * entry src m q := by
  have hstep : ∀ n t, n < dst.length →
      (t.length = dst.length ∧ (∀ r ∈ t, r.length = k) ∧
        ∀ p q, q < k → entry t p q =
          if p < n then
            entry dst p q + ∑ m ∈ Finset.range src.length, a * mat p m * entry src m q
          else entry dst p q) →
      ∃ t', forRangeM (fun m => saxpy_row (a * mat n m) src n m) src.length t = .ok t' ∧
        (t'.length = dst.length ∧ (∀ r ∈ t', r.length = k) ∧
          ∀ p q, q < k → entry t' p q =
            if p < n + 1 then
              entry dst p q + ∑ m ∈ Finset.range src.length, a * mat p m * entry src m q
            else entry dst p q) := by
    intro n t hn ⟨hlen, hrect, hent⟩
    obtain ⟨t', ht', hlen', hrect', hent'⟩ :=
      by_saxpy_loop_m a mat src t n k hsrc hrect (by omega)
    refine ⟨t', ht', by omega, hrect', fun p q hq => ?_⟩
    rw [hent' p q hq, hent p q hq]
    by_cases hp : p = n
    · subst hp
      rw [if_pos rfl, if_neg (lt_irrefl p), if_pos (Nat.lt_succ_self p)]
    · rw [if_neg hp]
      by_cases hlt : p < n
      · rw [if_pos hlt, if_pos (Nat.lt_succ_of_lt hlt)]
      · rw [if_neg hlt, if_neg (by omega)]
  obtain ⟨t, ht, hlen, hrect, hent⟩ := forRangeM_inv _
    (fun c t => t.length = dst.length ∧ (∀ r ∈ t, r.length = k) ∧
      ∀ p q, q < k → entry t p q =
        if p < c then
          entry dst p q + ∑ m ∈ Finset.range src.length, a * mat p m * entry src m q
        else entry dst p q) dst.length dst ⟨rfl, hdst, fun p q _ => by simp⟩ hstep
  exact ⟨t, ht, hlen, hrect, fun p q hp hq => by rw [hent p q hq, if_pos hp]⟩

/-- C19: for a non-empty `dst` and a `src` whose states all have one length `k`, every matrix
`M`, scalar `a` and flag `zeroFirst`, `mat_apply(dst, a, M, src, zeroFirst)` and the
row-by-row formulation, which zeroes every state of `dst` when `zeroFirst` is set and then
calls `dst[n_idx].saxpy(a * M(n_idx, m_idx), src[m_idx])` for every pair, both return, and
return the same states. -/
theorem mat_apply_eq_by_saxpy [CommRing α] (dst src : List (VectorEncapsulation α)) (a : α)
    (M : Nat → Nat → α) (zeroFirst : Bool) (k : Nat) (hne : dst ≠ [])
    (hdst : ∀ d ∈ dst, d.length = k) (hsrc : ∀ s ∈ src, s.length = k) :
    ∃ dst', mat_apply dst a M src zeroFirst = .ok dst' ∧
      mat_apply_by_saxpy dst a M src zeroFirst = .ok dst' := by
  obtain ⟨t, ht, hlen, hrect, hent⟩ := mat_apply_entries dst src a M zeroFirst k hne hdst hsrc
  obtain ⟨hlen₁, hrect₁, hent₁⟩ := entry_zeroFirst dst zeroFirst k hdst
  obtain ⟨u, hu, hulen, hurect, huent⟩ :=
    by_saxpy_loop_n a M src (if zeroFirst then dst.map zero else dst) k hsrc hrect₁
  rw [hlen₁] at hu hulen huent
  refine ⟨t, ht, ?_⟩
  unfold mat_apply_by_saxpy
  rw [hu]
  congr 1
  apply ext_entry u t k (by rw [hulen, hlen]) hurect hrect
  intro p q hp hq
  rw [hlen] at hp
  rw [huent p q hp hq, hent p q hp hq, hent₁ p q, Finset.mul_sum]
  congr 1
  exact Finset.sum_congr rfl (fun m _ => by ring)

/-- C19 at `dst = [[7, 8], [9, 10]]`, `src = [[1, 2], [3, 4]]`, `a = 2`, a full matrix and no
zeroing. -/
theorem mat_apply_eq_by_saxpy_witness :
    ([[7, 8], [9, 10]] : List (List ℤ)) ≠ [] ∧
    (∀ d ∈ ([[7, 8], [9, 10]] : List (List ℤ)), d.length = 2) ∧
    (∀ s ∈ ([[1, 2], [3, 4]] : List (List ℤ)), s.length = 2) ∧
    ∃ dst', mat_apply ([[7, 8], [9, 10]] : List (List ℤ)) 2 (fun n m => (n : ℤ) + 3 * m)
        [[1, 2], [3, 4]] false = .ok dst' ∧
      mat_apply_by_saxpy ([[7, 8], [9, 10]] : List (List ℤ)) 2 (fun n m => (n : ℤ) + 3 * m)
        [[1, 2], [3, 4]] false = .ok dst' :=
  ⟨by simp, by simp, by simp,
    mat_apply_eq_by_saxpy ([[7, 8], [9, 10]] : List (List ℤ)) [[1, 2], [3, 4]] 2
      (fun n m => (n : ℤ) + 3 * m) false 2 (by simp) (by simp) (by simp)⟩

/-- C12 at `a = 2`, `x = [1]`, `self = [7, 8, 9]`. -/
theorem saxpy_length_mismatch_witness :
    ([1] : List ℤ).length ≠ ([7, 8, 9] : List ℤ).length ∧
    saxpy (2 : ℤ) [1] [7, 8, 9] = .error .assertion :=
  ⟨by decide, saxpy_length_mismatch (2 : ℤ) [1] [7, 8, 9] (by decide)⟩

/-- C14 at `x` of another variant, and at `dst = [vector [7], other]`, `src = [vector [1]]`. -/
theorem variant_mismatch_witness :
    dynamic_cast (Encapsulation.other : Encapsulation ℤ) = none ∧
    copy_encap (Encapsulation.other : Encapsulation ℤ) [7, 8] = .error .assertion ∧
    saxpy_encap (2 : ℤ) Encapsulation.other [7, 8] = .error .assertion ∧
    mat_apply_encap [Encapsulation.vector ([7] : List ℤ), Encapsulation.other] 1
      (fun _ _ => 1) [Encapsulation.vector [1]] true = .error .assertion :=
  ⟨rfl,
    ((variant_mismatch (Encapsulation.other : Encapsulation ℤ) [7, 8] 2 [] []
      (fun _ _ => 1) true).1 rfl).1,
    ((variant_mismatch (Encapsulation.other : Encapsulation ℤ) [7, 8] 2 [] []
      (fun _ _ => 1) true).1 rfl).2,
    (variant_mismatch (Encapsulation.other : Encapsulation ℤ) [] 1
      [Encapsulation.vector ([7] : List ℤ), Encapsulation.other] [Encapsulation.vector [1]]
      (fun _ _ => 1) true).2 (Or.inl ⟨Encapsulation.other, by simp, rfl⟩)⟩

/-- C15 at calls that return: `copy` of `[1]` onto `[7, 8, 9]`, `saxpy(2, [1, 2])` on
`[3, 4]`, and `mat_apply` on `dst = [[7, 8], [9, 10]]`. -/
theorem length_fixed_witness :
    copy ([1] : List ℤ) [7, 8, 9] = .ok [1, 8, 9] ∧
    ([1, 8, 9] : List ℤ).length = ([7, 8, 9] : List ℤ).length ∧
    saxpy (2 : ℤ) [1, 2] [3, 4] = .ok [5, 8] ∧
    ([5, 8] : List ℤ).length = ([3, 4] : List ℤ).length ∧
    mat_apply ([[7, 8], [9, 10]] : List (List ℤ)) 2 (fun n m => if n = m then 1 else 0)
      [[1, 2], [3, 4]] false = .ok [[9, 12], [15, 18]] ∧
    ([[9, 12], [15, 18]] : List (List ℤ)).map List.length =
      ([[7, 8], [9, 10]] : List (List ℤ)).map List.length :=
  ⟨rfl,
    (length_fixed ([7, 8, 9] : List ℤ) [1] 0 [] [] (fun _ _ => 0) true).2.1 _ rfl,
    rfl,
    (length_fixed ([3, 4] : List ℤ) [1, 2] 2 [] [] (fun _ _ => 0) true).2.2.1 _ rfl,
    rfl,
    (length_fixed ([] : List ℤ) [] 2 [[7, 8], [9, 10]] [[1, 2], [3, 4]]
      (fun n m => if n = m then 1 else 0) false).2.2.2 _ rfl⟩

/-- C16 at `s = 3`. -/
theorem factory_create_witness :
    (0 : Int) ≤ 3 ∧
    ∃ v : VectorEncapsulation ℤ,
      (VectorFactory.mk 3).create () = .ok (Encapsulation.vector v) ∧
      (v.length : Int) = 3 ∧ (∀ e ∈ v, e = 0) ∧
      (∀ kind' : Unit, (VectorFactory.mk 3).create kind' = .ok (Encapsulation.vector v)) ∧
      (VectorFactory.mk 3).dofs = 3 :=
  ⟨by decide, factory_create (3 : Int) (by decide) ()⟩

end vector

end encap

namespace quadrature

section interp

variable {α : Type}

/-! ## `compute_interp` -/

/-- A product that leaves one index out, written with a factor `1` at that index. -/
theorem prod_erase_eq_prod_ite [CommRing α] (n j : Nat) (g : Nat → α) :
    ∏ k ∈ (Finset.range n).erase j, g k = ∏ k ∈ Finset.range n, if k = j then 1 else g k := by
  rw [← Finset.prod_erase (Finset.range n) (f := fun k => if k = j then 1 else g k) (a := j)
    (by simp)]
  refine Finset.prod_congr rfl (fun k hk => ?_)
  rw [if_neg (Finset.mem_erase.mp hk).1]

/-- The loop over `k` of `compute_interp`, after `n` rounds. -/
theorem interp_loop_k [Field α] (dst src : List α) (i j n : Nat) :
    forRange (interp_step dst src i j) n (1, 1) =
      (∏ k ∈ Finset.range n, if k = j then 1 else (src.getD j 0 - src.getD k 0),
       ∏ k ∈ Finset.range n, if k = j then 1 else (dst.getD i 0 - src.getD k 0)) := by
  induction n with
  | zero => simp [forRange]
  | succ n ih =>
    simp only [forRange, ih, interp_step, Finset.prod_range_succ]
    by_cases h : n = j
    · simp [h]
    · simp [h]

/-- The loop over `k` of `compute_interp` computes the denominator and the numerator of the
Lagrange basis value. -/
theorem interp_den_num_eq [Field α] (dst src : List α) (i j : Nat) :
    interp_den_num dst src i j = (lagrange_den src j, lagrange_num src j (dst.getD i 0)) := by
  unfold interp_den_num lagrange_den lagrange_num
  rw [interp_loop_k, prod_erase_eq_prod_ite, prod_erase_eq_prod_ite]

/-- The Lagrange basis value is its numerator divided by its denominator. -/
theorem lagrange_basis_eq_div [Field α] (src : List α) (j : Nat) (x : α) :
    lagrange_basis src j x = lagrange_num src j x / lagrange_den src j := by
  unfold lagrange_basis lagrange_num lagrange_den
  rw [Finset.prod_div_distrib]

/-- For pairwise distinct source nodes the denominator is not zero. -/
theorem lagrange_den_ne_zero [Field α] (src : List α) (hsrc : src.Nodup) (j : Nat)
    (hj : j < src.length) : lagrange_den src j ≠ 0 := by
  unfold lagrange_den
  rw [Finset.prod_ne_zero_iff]
  intro k hk
  obtain ⟨hkj, hkn⟩ := Finset.mem_erase.mp hk
  have hkn' : k < src.length := Finset.mem_range.mp hkn
  rw [List.getD_eq_getElem src 0 hj, List.getD_eq_getElem src 0 hkn', sub_ne_zero]
  intro e
  exact hkj ((hsrc.getElem_inj_iff).mp e).symm

/-- The value assigned to an entry, in terms of the Lagrange numerator and denominator. -/
theorem interp_entry_eq [LinearOrderedField α] (dst src : List α) (i j : Nat) :
    interp_entry dst src i j =
      if clamp_threshold < |lagrange_num src j (dst.getD i 0)| then
        lagrange_num src j (dst.getD i 0) / lagrange_den src j
      else 0 := by
  simp only [interp_entry, interp_den_num_eq, gt_iff_lt]

/-- The loop over `j` of `compute_interp`, for a fixed row `i`. -/
theorem interp_loop_j [LinearOrderedField α] (dst src : List α) (i n : Nat) (mat : Matrix α) :
    (forRange (fun j mat => mat.assign i j (interp_entry dst src i j)) n mat).rows = mat.rows ∧
    (forRange (fun j mat => mat.assign i j (interp_entry dst src i j)) n mat).cols = mat.cols ∧
    ∀ p q, (forRange (fun j mat => mat.assign i j (interp_entry dst src i j)) n mat).coeff p q =
      if p = i ∧ q < n then interp_entry dst src i q else mat.coeff p q := by
  refine forRange_inv (fun j mat => mat.assign i j (interp_entry dst src i j))
    (fun c m => m.rows = mat.rows ∧ m.cols = mat.cols ∧
      ∀ p q, m.coeff p q = if p = i ∧ q < c then interp_entry dst src i q else mat.coeff p q)
    n mat ⟨rfl, rfl, fun p q => by simp⟩ ?_
  intro j m _ ⟨hr, hc, hco⟩
  refine ⟨hr, hc, fun p q => ?_⟩
  simp only [Matrix.assign]
  by_cases h : p = i ∧ q = j
  · rw [if_pos h, if_pos ⟨h.1, by omega⟩, h.2]
  · rw [if_neg h, hco p q]
    by_cases hp : p = i
    · have hq : q ≠ j := fun e => h ⟨hp, e⟩
      have : q < j + 1 ↔ q < j := by omega
      simp [hp, this]
    · simp [hp]

/-- The matrix `compute_interp` returns: its size and every coefficient inside it. -/
theorem compute_interp_coeff [LinearOrderedField α] (dst src : List α) :
    (compute_interp dst src).rows = dst.length ∧ (compute_interp dst src).cols = src.length ∧
    ∀ i j, i < dst.length → j < src.length →
      (compute_interp dst src).coeff i j = interp_entry dst src i j := by
  have key := forRange_inv
    (fun i mat => forRange (fun j mat => mat.assign i j (interp_entry dst src i j))
      src.length mat)
    (fun c m => m.rows = dst.length ∧ m.cols = src.length ∧
      ∀ p q, m.coeff p q = if p < c ∧ q < src.length then interp_entry dst src p q else 0)
    dst.length (Matrix.create dst.length src.length)
    ⟨rfl, rfl, fun p q => by simp [Matrix.create]⟩
    (by
      intro i m _ ⟨hr, hc, hco⟩
      obtain ⟨hr', hc', hco'⟩ := interp_loop_j dst src i src.length m
      refine ⟨hr'.trans hr, hc'.trans hc, fun p q => ?_⟩
      rw [hco' p q, hco p q]
      by_cases hq : q < src.length
      · by_cases hp : p = i
        · subst hp
          simp [hq]
        · have : p < i + 1 ↔ p < i := by omega
          simp [hp, this]
      · simp [hq])
  obtain ⟨hr, hc, hco⟩ := key
  exact ⟨hr, hc, fun i j hi hj => by
    have := hco i j
    rw [if_pos ⟨hi, hj⟩] at this
    exact this⟩

/-! ## The claims on the interpolation matrix -/

/-- C6: for every destination node list `dst` and every source node list `src` with pairwise
distinct entries, `compute_interp(dst, src)` returns a matrix with `dst.size()` rows and
`src.size()` columns; the denominator of every entry is not zero; and the entry `(i, j)` is
the Lagrange basis value, the product over all `k ≠ j` of
`(dst[i] - src[k]) / (src[j] - src[k])`, whenever the entry is not clamped to zero: whenever
the test `abs(num) > 1e-32` of the source passes, and so whenever the entry is not zero. -/
theorem compute_interp_spec [LinearOrderedField α] (dst src : List α) (hsrc : src.Nodup) :
    (compute_interp dst src).rows = dst.length ∧ (compute_interp dst src).cols = src.length ∧
    ∀ i j, i < dst.length → j < src.length →
      lagrange_den src j ≠ 0 ∧
      (clamp_threshold < |lagrange_num src j (dst.getD i 0)| →
        (compute_interp dst src).coeff i j = lagrange_basis src j (dst.getD i 0)) ∧
      ((compute_interp dst src).coeff i j ≠ 0 →
        (compute_interp dst src).coeff i j = lagrange_basis src j (dst.getD i 0)) := by
  obtain ⟨hr, hc, hco⟩ := compute_interp_coeff dst src
  refine ⟨hr, hc, fun i j hi hj => ⟨lagrange_den_ne_zero src hsrc j hj, ?_, ?_⟩⟩
  · intro h
    rw [hco i j hi hj, interp_entry_eq, if_pos h, lagrange_basis_eq_div]
  · intro h
    rw [hco i j hi hj, interp_entry_eq] at h ⊢
    by_cases hc : clamp_threshold < |lagrange_num src j (dst.getD i 0)|
    · rw [if_pos hc, lagrange_basis_eq_div]
    · rw [if_neg hc] at h
      exact absurd rfl h

/-- The threshold is positive. -/
theorem clamp_threshold_pos [LinearOrderedField α] : (0 : α) < clamp_threshold := by
  unfold clamp_threshold
  positivity

/-- C7, as stated, fails: with `dst = [1]` and `src = [10^40, 0]` the Lagrange basis value of
the entry `(0, 0)` is `1 / 10^40`, of magnitude below the threshold, and the entry is that
value, not `0`: the source compares the numerator, here `1`, with the threshold. -/
theorem compute_interp_clamp_counterexample :
    ([10 ^ 40, 0] : List ℚ).Nodup ∧
    |lagrange_basis ([10 ^ 40, 0] : List ℚ) 0 (([1] : List ℚ).getD 0 0)| < clamp_threshold ∧
    (compute_interp ([1] : List ℚ) [10 ^ 40, 0]).coeff 0 0 = 1 / 10 ^ 40 ∧
    (compute_interp ([1] : List ℚ) [10 ^ 40, 0]).coeff 0 0 ≠ 0 := by
  have hv : (compute_interp ([1] : List ℚ) [10 ^ 40, 0]).coeff 0 0 = 1 / 10 ^ 40 := by
    simp [compute_interp, forRange, Matrix.assign, Matrix.create, interp_entry,
      interp_den_num, interp_step, clamp_threshold]
    norm_num [abs_le]
  refine ⟨by norm_num, ?_, hv, by rw [hv]; norm_num⟩
  rw [lagrange_basis_eq_div, lagrange_num, lagrange_den,
    show (Finset.range ([10 ^ 40, 0] : List ℚ).length).erase 0 = {1} from by decide]
  simp only [Finset.prod_singleton, clamp_threshold]
  norm_num [abs_lt]

/-- C7, amended: for every `dst` and `src` with pairwise distinct source nodes and every entry
`(i, j)` of `compute_interp(dst, src)`: if the magnitude of the numerator, the product over
all `k ≠ j` of `dst[i] - src[k]`, is at most the threshold `1e-32`, the entry is exactly `0`;
otherwise the entry is the Lagrange basis value, the numerator divided by the denominator. -/
theorem compute_interp_clamp [LinearOrderedField α] (dst src : List α) (hsrc : src.Nodup)
    (i j : Nat) (hi : i < dst.length) (hj : j < src.length) :
    (|lagrange_num src j (dst.getD i 0)| ≤ clamp_threshold →
      (compute_interp dst src).coeff i j = 0) ∧
    (clamp_threshold < |lagrange_num src j (dst.getD i 0)| →
      lagrange_den src j ≠ 0 ∧
      (compute_interp dst src).coeff i j =
        lagrange_num src j (dst.getD i 0) / lagrange_den src j ∧
      (compute_interp dst src).coeff i j = lagrange_basis src j (dst.getD i 0)) := by
  rw [(compute_interp_coeff dst src).2.2 i j hi hj, interp_entry_eq]
  refine ⟨fun h => by rw [if_neg (not_lt.mpr h)], fun h => ?_⟩
  rw [if_pos h]
  exact ⟨lagrange_den_ne_zero src hsrc j hj, rfl, (lagrange_basis_eq_div _ _ _).symm⟩

/-- C8, as stated, fails: the nodes `0` and `1 / 10^33` are distinct, and the entry `(0, 0)`
of `compute_interp(nodes, nodes)` is `0`, not `1`: its numerator `-1 / 10^33` does not pass
the test `abs(num) > 1e-32`. -/
theorem compute_interp_identity_counterexample :
    ([0, 1 / 10 ^ 33] : List ℚ).Nodup ∧
    (compute_interp ([0, 1 / 10 ^ 33] : List ℚ) [0, 1 / 10 ^ 33]).coeff 0 0 = 0 ∧
    (compute_interp ([0, 1 / 10 ^ 33] : List ℚ) [0, 1 / 10 ^ 33]).coeff 0 0 ≠ 1 := by
  have hv : (compute_interp ([0, 1 / 10 ^ 33] : List ℚ) [0, 1 / 10 ^ 33]).coeff 0 0 = 0 := by
    simp [compute_interp, forRange, Matrix.assign, Matrix.create, interp_entry,
      interp_den_num, interp_step, clamp_threshold]
    norm_num [abs_le]
  exact ⟨by norm_num, hv, by rw [hv]; norm_num⟩

/-- C8, amended: for every list of pairwise distinct nodes, the entry `(i, j)` of
`compute_interp(nodes, nodes)` is `0` for every `i ≠ j`, and the entry `(i, i)` is `1` for
every `i` at which the product over all `k ≠ i` of `nodes[i] - nodes[k]` has a magnitude
above the threshold `1e-32`; where that magnitude is at most the threshold, the entry `(i, i)`
is `0`.  No entry divides by zero. -/
theorem compute_interp_identity [LinearOrderedField α] (nodes : List α) (hnodes : nodes.Nodup)
    (i j : Nat) (hi : i < nodes.length) (hj : j < nodes.length) :
    lagrange_den nodes j ≠ 0 ∧
    (i ≠ j → (compute_interp nodes nodes).coeff i j = 0) ∧
    (i = j → clamp_threshold < |lagrange_num nodes i (nodes.getD i 0)| →
      (compute_interp nodes nodes).coeff i j = 1) ∧
    (i = j → |lagrange_num nodes i (nodes.getD i 0)| ≤ clamp_threshold →
      (compute_interp nodes nodes).coeff i j = 0) := by
  rw [(compute_interp_coeff nodes nodes).2.2 i j hi hj, interp_entry_eq]
  refine ⟨lagrange_den_ne_zero nodes hnodes j hj, fun hij => ?_, fun hij h => ?_,
    fun hij h => ?_⟩
  · have hnum : lagrange_num nodes j (nodes.getD i 0) = 0 := by
      unfold lagrange_num
      exact Finset.prod_eq_zero
        (Finset.mem_erase.mpr ⟨hij, Finset.mem_range.mpr hi⟩) (sub_self _)
    rw [hnum, abs_zero, if_neg (not_lt.mpr (le_of_lt clamp_threshold_pos))]
  · subst hij
    have hden : lagrange_den nodes i = lagrange_num nodes i (nodes.getD i 0) := rfl
    have hne : lagrange_num nodes i (nodes.getD i 0) ≠ 0 := by
      intro h0
      rw [h0, abs_zero] at h
      exact absurd h (not_lt.mpr (le_of_lt clamp_threshold_pos))
    rw [if_pos h, hden, div_self hne]
  · subst hij
    rw [if_neg (not_lt.mpr h)]

/-- C6 at `dst = [1/2]`, `src = [0, 1]`: a matrix of one row and two columns whose entry
`(0, 0)` is the Lagrange basis value of node `0` at `1/2`. -/
theorem compute_interp_spec_witness :
    ([0, 1] : List ℚ).Nodup ∧
    (compute_interp ([1 / 2] : List ℚ) [0, 1]).rows = 1 ∧
    (compute_interp ([1 / 2] : List ℚ) [0, 1]).cols = 2 ∧
    ((compute_interp ([1 / 2] : List ℚ) [0, 1]).coeff 0 0 ≠ 0 →
      (compute_interp ([1 / 2] : List ℚ) [0, 1]).coeff 0 0 =
        lagrange_basis [0, 1] 0 (([1 / 2] : List ℚ).getD 0 0)) :=
  ⟨by norm_num,
    (compute_interp_spec ([1 / 2] : List ℚ) [0, 1] (by norm_num)).1,
    (compute_interp_spec ([1 / 2] : List ℚ) [0, 1] (by norm_num)).2.1,
    ((compute_interp_spec ([1 / 2] : List ℚ) [0, 1] (by norm_num)).2.2 0 0
      (by simp) (by simp)).2.2⟩

/-- C7, amended, at `dst = [1]`, `src = [10^40, 0]`, entry `(0, 0)`. -/
theorem compute_interp_clamp_witness :
    ([10 ^ 40, 0] : List ℚ).Nodup ∧ 0 < ([1] : List ℚ).length ∧
    0 < ([10 ^ 40, 0] : List ℚ).length ∧
    (|lagrange_num ([10 ^ 40, 0] : List ℚ) 0 (([1] : List ℚ).getD 0 0)| ≤ clamp_threshold →
      (compute_interp ([1] : List ℚ) [10 ^ 40, 0]).coeff 0 0 = 0) :=
  ⟨by norm_num, by simp, by simp,
    (compute_interp_clamp ([1] : List ℚ) [10 ^ 40, 0] (by norm_num) 0 0 (by simp) (by simp)).1⟩

/-- C8, amended, at `nodes = [0, 1]`, entry `(0, 1)`. -/
theorem compute_interp_identity_witness :
    ([0, 1] : List ℚ).Nodup ∧ 0 < ([0, 1] : List ℚ).length ∧ 1 < ([0, 1] : List ℚ).length ∧
    (compute_interp ([0, 1] : List ℚ) [0, 1]).coeff 0 1 = 0 :=
  ⟨by norm_num, by simp, by simp,
    (compute_interp_identity ([0, 1] : List ℚ) (by norm_num) 0 1 (by simp) (by simp)).2.1
      (by decide)⟩

/-! ## Partition of unity -/

/-- For pairwise distinct source nodes, of which there is at least one, the Lagrange basis
values at any point sum to one. -/
theorem sum_lagrange_basis [Field α] (src : List α) (hne : src ≠ []) (hsrc : src.Nodup)
    (x : α) : ∑ j ∈ Finset.range src.length, lagrange_basis src j x = 1 := by
  have hinj : Set.InjOn (fun k => src.getD k 0) (Finset.range src.length : Finset Nat) := by
    intro p hp q hq hpq
    have hp' : p < src.length := Finset.mem_range.mp hp
    have hq' : q < src.length := Finset.mem_range.mp hq
    simp only [] at hpq
    rw [List.getD_eq_getElem src 0 hp', List.getD_eq_getElem src 0 hq'] at hpq
    exact (hsrc.getElem_inj_iff).mp hpq
  have hnonempty : (Finset.range src.length).Nonempty := by
    rw [Finset.nonempty_range_iff]
    exact fun h0 => hne (List.length_eq_zero.mp h0)
  have key := congrArg (Polynomial.eval x) (Lagrange.sum_basis hinj hnonempty)
  rw [Polynomial.eval_finset_sum, Polynomial.eval_one] at key
  rw [← key]
  refine Finset.sum_congr rfl (fun j _ => ?_)
  unfold lagrange_basis Lagrange.basis
  rw [Polynomial.eval_prod]
  refine Finset.prod_congr rfl (fun k _ => ?_)
  simp only [Lagrange.basisDivisor, Polynomial.eval_mul, Polynomial.eval_C, Polynomial.eval_sub,
    Polynomial.eval_X]
  rw [div_eq_inv_mul]

/-- C20: for a non-empty source node list `src` with pairwise distinct entries and every
destination node list `dst`, in every row `i` of `compute_interp(dst, src)` in which each
numerator, the product over all `k ≠ j` of `dst[i] - src[k]`, is `0` or of a magnitude above
the threshold `1e-32`, the entries of the row sum to `1`. -/
theorem compute_interp_row_sum [LinearOrderedField α] (dst src : List α) (hne : src ≠ [])
    (hsrc : src.Nodup) (i : Nat) (hi : i < dst.length)
    (hrow : ∀ j, j < src.length →
      lagrange_num src j (dst.getD i 0) = 0 ∨
        clamp_threshold < |lagrange_num src j (dst.getD i 0)|) :
    ∑ j ∈ Finset.range src.length, (compute_interp dst src).coeff i j = 1 := by
  rw [← sum_lagrange_basis src hne hsrc (dst.getD i 0)]
  refine Finset.sum_congr rfl (fun j hj => ?_)
  have hj' : j < src.length := Finset.mem_range.mp hj
  rw [(compute_interp_coeff dst src).2.2 i j hi hj', interp_entry_eq, lagrange_basis_eq_div]
  rcases hrow j hj' with h0 | hbig
  · rw [h0, abs_zero, if_neg (not_lt.mpr (le_of_lt clamp_threshold_pos)), zero_div]
  · rw [if_pos hbig]

/-- C20 at `dst = [1/2]`, `src = [0, 1]`, row `0`. -/
theorem compute_interp_row_sum_witness :
    ([0, 1] : List ℚ) ≠ [] ∧ ([0, 1] : List ℚ).Nodup ∧ 0 < ([1 / 2] : List ℚ).length ∧
    (∀ j, j < ([0, 1] : List ℚ).length →
      lagrange_num ([0, 1] : List ℚ) j (([1 / 2] : List ℚ).getD 0 0) = 0 ∨
        clamp_threshold < |lagrange_num ([0, 1] : List ℚ) j (([1 / 2] : List ℚ).getD 0 0)|) ∧
    ∑ j ∈ Finset.range ([0, 1] : List ℚ).length,
      (compute_interp ([1 / 2] : List ℚ) [0, 1]).coeff 0 j = 1 := by
  have hrow : ∀ j, j < ([0, 1] : List ℚ).length →
      lagrange_num ([0, 1] : List ℚ) j (([1 / 2] : List ℚ).getD 0 0) = 0 ∨
        clamp_threshold <
          |lagrange_num ([0, 1] : List ℚ) j (([1 / 2] : List ℚ).getD 0 0)| := by
    intro j hj
    right
    have hj2 : j < 2 := hj
    interval_cases j
    · rw [lagrange_num, show (Finset.range ([0, 1] : List ℚ).length).erase 0 = {1} from by
        decide]
      simp only [Finset.prod_singleton, clamp_threshold]
      norm_num [abs_of_neg]
    · rw [lagrange_num, show (Finset.range ([0, 1] : List ℚ).length).erase 1 = {0} from by
        decide]
      simp only [Finset.prod_singleton, clamp_threshold]
      norm_num [abs_of_pos]
  exact ⟨by simp, by norm_num, by simp, hrow,
    compute_interp_row_sum ([1 / 2] : List ℚ) [0, 1] (by simp) (by norm_num) 0 (by simp) hrow⟩

end interp

/-! ## The quadrature factory -/

/-- What `make_shared` returns is never the `ValueError` of the factory. -/
theorem make_shared_ne_ValueError {ρ ε : Type} (r : Except ε ρ) :
    make_shared r ≠ .error FactoryError.ValueError := by
  cases r <;> simp [make_shared]

/-- C18: for every node count `m` and each of the five family tags, `quadrature_factory(m,
tag)` returns what the constructor of the family of that tag returns for `m`: the same rule,
and, should the constructor leave with an exception, that exception; the factory leaves with
its own `ValueError` if and only if the tag is none of the five; and `compute_nodes(m, tag)`
returns the nodes of the rule the factory returns, and leaves as the factory does. -/
theorem quadrature_factory_spec {ρ ε ν : Type} (fam : Families ρ ε) (get_nodes : ρ → ν)
    (m : Nat) :
    quadrature_factory fam m .GaussLegendre = make_shared (fam.GaussLegendre m) ∧
    quadrature_factory fam m .GaussLobatto = make_shared (fam.GaussLobatto m) ∧
    quadrature_factory fam m .GaussRadau = make_shared (fam.GaussRadau m) ∧
    quadrature_factory fam m .ClenshawCurtis = make_shared (fam.ClenshawCurtis m) ∧
    quadrature_factory fam m .Uniform = make_shared (fam.Uniform m) ∧
    (∀ (c : Except ε ρ) (rule : ρ), c = .ok rule → make_shared c = .ok rule) ∧
    (∀ tag, quadrature_factory fam m tag = .error FactoryError.ValueError ↔
      (tag ≠ .GaussLegendre ∧ tag ≠ .GaussLobatto ∧ tag ≠ .GaussRadau ∧
        tag ≠ .ClenshawCurtis ∧ tag ≠ .Uniform)) ∧
    (∀ tag rule, quadrature_factory fam m tag = .ok rule →
      compute_nodes fam get_nodes m tag = .ok (get_nodes rule)) ∧
    (∀ tag e, quadrature_factory fam m tag = .error e →
      compute_nodes fam get_nodes m tag = .error e) := by
  refine ⟨rfl, rfl, rfl, rfl, rfl, ?_, ?_, ?_, ?_⟩
  · intro c rule hc
    rw [hc]; rfl
  · intro tag
    constructor
    · intro h
      refine ⟨?_, ?_, ?_, ?_, ?_⟩ <;>
      · intro ht
        rw [ht] at h
        exact make_shared_ne_ValueError _ h
    · rintro ⟨h1, h2, h3, h4, h5⟩
      simp [quadrature_factory, h1, h2, h3, h4, h5]
  · intro tag rule h
    simp [compute_nodes, h]
  · intro tag e h
    simp [compute_nodes, h]

end quadrature

namespace config

/-! ## The configuration lookup -/

/-- C17: the lookup maps the option string `"gauss-lobatto"` to `GaussLobatto`,
`"gauss-legendre"` to `GaussLegendre`, `"gauss-radau"` to `GaussRadau`, `"clenshaw-curtis"` to
`ClenshawCurtis` and `"uniform"` to `Uniform`; for every other string it leaves with
`std::invalid_argument`; it returns a tag if and only if the string is one of the five. -/
theorem get_value_spec (variables_map : String → Option String) (name type : String)
    (h : variables_map name = some type) :
    (type = "gauss-lobatto" →
      get_value variables_map name = .ok quadrature.QuadratureType.GaussLobatto) ∧
    (type = "gauss-legendre" →
      get_value variables_map name = .ok quadrature.QuadratureType.GaussLegendre) ∧
    (type = "gauss-radau" →
      get_value variables_map name = .ok quadrature.QuadratureType.GaussRadau) ∧
    (type = "clenshaw-curtis" →
      get_value variables_map name = .ok quadrature.QuadratureType.ClenshawCurtis) ∧
    (type = "uniform" →
      get_value variables_map name = .ok quadrature.QuadratureType.Uniform) ∧
    (type ∉ ["gauss-lobatto", "gauss-legendre", "gauss-radau", "clenshaw-curtis", "uniform"] →
      get_value variables_map name = .error .invalid_argument) ∧
    ((∃ tag, get_value variables_map name = .ok tag) ↔
      type ∈ ["gauss-lobatto", "gauss-legendre", "gauss-radau", "clenshaw-curtis", "uniform"])
    := by
  have hnot : type ∉
      ["gauss-lobatto", "gauss-legendre", "gauss-radau", "clenshaw-curtis", "uniform"] →
      get_value variables_map name = .error .invalid_argument := by
    intro hn
    simp only [List.mem_cons, List.mem_singleton, List.not_mem_nil, or_false, not_or] at hn
    obtain ⟨h1, h2, h3, h4, h5⟩ := hn
    simp [get_value, h, h1, h2, h3, h4, h5]
  refine ⟨?_, ?_, ?_, ?_, ?_, hnot, ?_⟩
  · rintro rfl; simp [get_value, h]
  · rintro rfl; simp [get_value, h]
  · rintro rfl; simp [get_value, h]
  · rintro rfl; simp [get_value, h]
  · rintro rfl; simp [get_value, h]
  · constructor
    · rintro ⟨tag, htag⟩
      by_contra hn
      rw [hnot hn] at htag
      cases htag
    · intro hmem
      simp only [List.mem_cons, List.mem_singleton, List.not_mem_nil, or_false] at hmem
      rcases hmem with rfl | rfl | rfl | rfl | rfl
      · exact ⟨quadrature.QuadratureType.GaussLobatto, by simp [get_value, h]⟩
      · exact ⟨quadrature.QuadratureType.GaussLegendre, by simp [get_value, h]⟩
      · exact ⟨quadrature.QuadratureType.GaussRadau, by simp [get_value, h]⟩
      · exact ⟨quadrature.QuadratureType.ClenshawCurtis, by simp [get_value, h]⟩
      · exact ⟨quadrature.QuadratureType.Uniform, by simp [get_value, h]⟩

/-- C17 at the option strings `"Gauss-Lobatto"`, which differs in letter case, and
`" uniform"`, which has a blank in front: both are refused. -/
theorem get_value_spec_witness :
    (fun _ => some "Gauss-Lobatto" : String → Option String) "quad_type" =
      some "Gauss-Lobatto" ∧
    get_value (fun _ => some "Gauss-Lobatto") "quad_type" = .error .invalid_argument ∧
    get_value (fun _ => some " uniform") "quad_type" = .error .invalid_argument :=
  ⟨rfl,
    (get_value_spec (fun _ => some "Gauss-Lobatto") "quad_type" "Gauss-Lobatto" rfl).2.2.2.2.2.1
      (by decide),
    (get_value_spec (fun _ => some " uniform") "quad_type" " uniform" rfl).2.2.2.2.2.1
      (by decide)⟩

end config

end pfasst
